import Mathlib

/-!
Verification of the real-time collaboration broker (socket-server) against its
specification.  The definitions below are a shallow embedding of the TypeScript
source under `apps/sim/socket-server` (room registry, eviction controller,
workspace fanout, HTTP ingress) and `apps/sim/lib/realtime`.  JavaScript `Map`s
are modelled as insertion-ordered association lists, JS `Set`s as
insertion-ordered duplicate-free lists, and the socket.io side effects
(`emit`, `join`, `leave`) as an explicit effect trace.
-/

namespace Sim

/-! ## Association-list maps (model of JS `Map` with string keys)

JS `Map.set` replaces an existing binding in place (keeping insertion order)
and appends a missing one at the end; `Map.delete` removes the binding. -/

def mfind {α : Type} : List (String × α) → String → Option α
  | [], _ => none
  | (k', v) :: rest, k => if k' = k then some v else mfind rest k

def mset {α : Type} : List (String × α) → String → α → List (String × α)
  | [], k, v => [(k, v)]
  | (k', v') :: rest, k, v =>
      if k' = k then (k, v) :: rest else (k', v') :: mset rest k v

def mdel {α : Type} : List (String × α) → String → List (String × α)
  | [], _ => []
  | (k', v') :: rest, k =>
      if k' = k then mdel rest k else (k', v') :: mdel rest k

def mkeys {α : Type} (m : List (String × α)) : List String :=
  m.map Prod.fst

/-! ## JS `Set` of socket ids (insertion ordered) -/

def sadd (l : List String) (x : String) : List String :=
  if x ∈ l then l else l ++ [x]

def sdel (l : List String) (x : String) : List String :=
  l.filter (fun y => y ≠ x)


/-! ## JSON values (event payloads) -/

inductive JVal where
  | null
  | bool (b : Bool)
  | num (n : Int)
  | str (s : String)
  | arr (elems : List JVal)
  | obj (fields : List (String × JVal))

/-- `some s ↦ "s"`, `none ↦ null`: how a nullable string field is serialized. -/
def jstr : Option String → JVal
  | some s => .str s
  | none => .null

/-! ## Side effects of the broker (socket.io calls), recorded as a trace -/

inductive Effect where
  | emitRoom (room event : String) (payload : JVal)
  | emitSocket (socket event : String) (payload : JVal)
  | socketJoin (socket room : String)
  | socketLeave (socket room : String)
  | disconnect (socket : String)

/-! ## Data model (from `socket-server/rooms/manager.ts`) -/

structure Cursor where
  x : Int
  y : Int
deriving DecidableEq

inductive SelType where
  | block
  | edge
  | none
deriving DecidableEq

def SelType.asString : SelType → String
  | .block => "block"
  | .edge => "edge"
  | .none => "none"

structure Selection where
  type : SelType
  id : Option String
deriving DecidableEq

/-- `UserPresence` from `manager.ts`.  The TS field `role` is declared `string`,
but `handlePermissionChange` assigns `newRole!` to it, so at runtime it can hold
`null`; it is therefore modelled as `Option String`. -/
structure UserPresence where
  userId : String
  workflowId : String
  userName : String
  socketId : String
  joinedAt : Nat
  lastActivity : Nat
  role : Option String
  cursor : Option Cursor
  selection : Option Selection
  avatarUrl : Option String
deriving DecidableEq

/-- `WorkflowRoom`: `users` is the JS `Map` socketId → UserPresence. -/
structure WorkflowRoom where
  workflowId : String
  users : List (String × UserPresence)
  lastModified : Nat
  activeConnections : Nat
deriving DecidableEq

/-- `WorkspaceRoom`: `users` is the JS `Set` of socket ids. -/
structure WorkspaceRoom where
  workspaceId : String
  users : List String
  lastModified : Nat
  activeConnections : Nat
deriving DecidableEq

structure SocketWorkspace where
  workspaceId : String
  role : String
deriving DecidableEq

structure UserSession where
  userId : String
  userName : String
  avatarUrl : Option String
deriving DecidableEq

/-- The mutable state of `RoomManager`. -/
structure RM where
  workflowRooms : List (String × WorkflowRoom)
  workspaceRooms : List (String × WorkspaceRoom)
  socketToWorkflow : List (String × String)
  socketToWorkspace : List (String × SocketWorkspace)
  userSessions : List (String × UserSession)
deriving DecidableEq

/-- State of a freshly constructed `RoomManager`. -/
def RM.initial : RM :=
  { workflowRooms := [], workspaceRooms := [], socketToWorkflow := [],
    socketToWorkspace := [], userSessions := [] }

/-! ## RoomManager operations (from `rooms/manager.ts`) -/

def createWorkflowRoom (workflowId : String) (now : Nat) : WorkflowRoom :=
  { workflowId := workflowId, users := [], lastModified := now,
    activeConnections := 0 }

def createWorkspaceRoom (workspaceId : String) (now : Nat) : WorkspaceRoom :=
  { workspaceId := workspaceId, users := [], lastModified := now,
    activeConnections := 0 }

/-- `RoomManager.cleanupUserFromRoom`: removes the socket from the workflow
room, decrements `activeConnections` (clamped at 0 via `Math.max`), deletes the
room when the count reaches zero, then unconditionally clears the
`socketToWorkflow` and `userSessions` entries of the socket. -/
def cleanupUserFromRoom (st : RM) (socketId workflowId : String) : RM :=
  let st1 :=
    match mfind st.workflowRooms workflowId with
    | some room =>
        let users' := mdel room.users socketId
        let ac := room.activeConnections - 1
        if ac = 0 then
          { st with workflowRooms := mdel st.workflowRooms workflowId }
        else
          { st with workflowRooms :=
              (mset st.workflowRooms workflowId
                { room with users := users', activeConnections := ac }) }
    | none => st
  { st1 with socketToWorkflow := mdel st1.socketToWorkflow socketId,
             userSessions := mdel st1.userSessions socketId }

/-- `RoomManager.cleanupUserFromWorkspaceRoom`. -/
def cleanupUserFromWorkspaceRoom (st : RM) (socketId workspaceId : String) : RM :=
  let st1 :=
    match mfind st.workspaceRooms workspaceId with
    | some room =>
        let users' := sdel room.users socketId
        let ac := room.activeConnections - 1
        if ac = 0 then
          { st with workspaceRooms := mdel st.workspaceRooms workspaceId }
        else
          { st with workspaceRooms :=
              (mset st.workspaceRooms workspaceId
                { room with users := users', activeConnections := ac }) }
    | none => st
  { st1 with socketToWorkspace := mdel st1.socketToWorkspace socketId }

/-- JSON serialization of a `UserPresence` (optional fields omitted or null as
in JS). -/
def presenceJson (p : UserPresence) : JVal :=
  .obj ([("userId", .str p.userId), ("workflowId", .str p.workflowId),
         ("userName", .str p.userName), ("socketId", .str p.socketId),
         ("joinedAt", .num p.joinedAt), ("lastActivity", .num p.lastActivity),
         ("role", jstr p.role)] ++
        (match p.cursor with
         | some c => [("cursor", JVal.obj [("x", .num c.x), ("y", .num c.y)])]
         | none => []) ++
        (match p.selection with
         | some s => [("selection", JVal.obj (("type", JVal.str s.type.asString) ::
             (match s.id with | some i => [("id", JVal.str i)] | none => [])))]
         | none => []) ++
        [("avatarUrl", jstr p.avatarUrl)])

/-- `RoomManager.broadcastPresenceUpdate`. -/
def broadcastPresenceUpdate (st : RM) (workflowId : String) : List Effect :=
  match mfind st.workflowRooms workflowId with
  | some room => [Effect.emitRoom workflowId "presence-update"
      (JVal.arr (room.users.map (fun q => presenceJson q.2)))]
  | none => []

/-- `RoomManager.getTotalActiveConnections`. -/
def getTotalActiveConnections (st : RM) : Nat :=
  st.workflowRooms.foldl (fun total p => total + p.2.activeConnections) 0

/-- One step of the cleanup loop in `handleWorkflowDeletion`: `socket.leave` if
the socket is still connected, then `cleanupUserFromRoom`. -/
def wfDeletionCleanupStep (connected : List String) (workflowId : String)
    (acc : RM × List Effect) (socketId : String) : RM × List Effect :=
  let effs := if socketId ∈ connected then [Effect.socketLeave socketId workflowId] else []
  (cleanupUserFromRoom acc.1 socketId workflowId, acc.2 ++ effs)

/-- `RoomManager.handleWorkflowDeletion`: no-op when no in-memory room exists;
otherwise broadcast `workflow-deleted`, force-leave and clean up every member,
and delete the room (the final delete is redundant, as in the source). -/
def handleWorkflowDeletion (st : RM) (connected : List String) (now : Nat)
    (workflowId : String) : RM × List Effect :=
  match mfind st.workflowRooms workflowId with
  | none => (st, [])
  | some room =>
      let e0 := Effect.emitRoom workflowId "workflow-deleted"
        (.obj [("workflowId", .str workflowId),
               ("message", .str "This workflow has been deleted"),
               ("timestamp", .num now)])
      let socketsToDisconnect := mkeys room.users
      let res := socketsToDisconnect.foldl (wfDeletionCleanupStep connected workflowId)
        (st, [e0])
      ({ res.1 with workflowRooms := mdel res.1.workflowRooms workflowId }, res.2)

/-- `RoomManager.handleWorkflowRevert`. -/
def handleWorkflowRevert (st : RM) (workflowId : String) (timestamp : Nat) :
    RM × List Effect :=
  match mfind st.workflowRooms workflowId with
  | none => (st, [])
  | some room =>
      ({ st with workflowRooms :=
           (mset st.workflowRooms workflowId
             { room with lastModified := timestamp }) },
       [Effect.emitRoom workflowId "workflow-reverted"
         (.obj [("workflowId", .str workflowId),
                ("message", .str "Workflow has been reverted to deployed state"),
                ("timestamp", .num timestamp)])])

/-- `RoomManager.handleWorkflowUpdate`. -/
def handleWorkflowUpdate (st : RM) (now : Nat) (workflowId : String) :
    RM × List Effect :=
  match mfind st.workflowRooms workflowId with
  | none => (st, [])
  | some room =>
      ({ st with workflowRooms :=
           (mset st.workflowRooms workflowId
             { room with lastModified := now }) },
       [Effect.emitRoom workflowId "workflow-updated"
         (.obj [("workflowId", .str workflowId),
                ("message", .str "Workflow has been updated externally"),
                ("timestamp", .num now)])])

/-- `RoomManager.handleCopilotWorkflowEdit`. -/
def handleCopilotWorkflowEdit (st : RM) (now : Nat) (workflowId : String)
    (description : Option String) : RM × List Effect :=
  match mfind st.workflowRooms workflowId with
  | none => (st, [])
  | some room =>
      ({ st with workflowRooms :=
           (mset st.workflowRooms workflowId
             { room with lastModified := now }) },
       [Effect.emitRoom workflowId "copilot-workflow-edit"
         (.obj [("workflowId", .str workflowId),
                ("description", jstr description),
                ("message", .str "Copilot has edited the workflow - rehydrating from database"),
                ("timestamp", .num now)])])

def permRevokedPayload (workspaceId : String) (now : Nat) : JVal :=
  .obj [("workspaceId", .str workspaceId),
        ("message", .str "Your access to this workspace has been removed"),
        ("timestamp", .num now)]

def permChangedPayload (workspaceId workflowId : String)
    (oldRole newRole : Option String) (now : Nat) : JVal :=
  .obj [("workspaceId", .str workspaceId), ("workflowId", .str workflowId),
        ("oldRole", jstr oldRole), ("newRole", jstr newRole),
        ("message", .str "Your permissions have been updated"),
        ("timestamp", .num now)]

/-- Per-socket body of the loop in `handlePermissionChange`.  If `isRemoved`,
emit `permission-revoked` (only when the socket is still connected), leave the
socket.io room and clean up the registry; otherwise update the cached role on
the Presence and emit `permission-changed`. -/
def permChangeSocket (connected : List String) (now : Nat)
    (workspaceId roomWfId : String) (newRole : Option String) (isRemoved : Bool)
    (acc : RM × List Effect) (sp : String × UserPresence) : RM × List Effect :=
  if isRemoved then
    let effs :=
      if sp.1 ∈ connected then
        [Effect.emitSocket sp.1 "permission-revoked" (permRevokedPayload workspaceId now),
         Effect.socketLeave sp.1 roomWfId]
      else []
    (cleanupUserFromRoom acc.1 sp.1 roomWfId, acc.2 ++ effs)
  else
    let st' :=
      match mfind acc.1.workflowRooms roomWfId with
      | some r =>
          { acc.1 with workflowRooms :=
              (mset acc.1.workflowRooms roomWfId
                { r with users := mset r.users sp.1 { sp.2 with role := newRole } }) }
      | none => acc.1
    let effs :=
      if sp.1 ∈ connected then
        [Effect.emitSocket sp.1 "permission-changed"
          (permChangedPayload workspaceId roomWfId sp.2.role newRole now)]
      else []
    (st', acc.2 ++ effs)

/-- Per-room body of `handlePermissionChange`: snapshot the user's sockets in
the room, process each, then broadcast a presence update.  (The `none` branch
is unreachable from the source's call pattern and is kept for totality.) -/
def permChangeRoom (connected : List String) (now : Nat)
    (userId workspaceId : String) (newRole : Option String) (isRemoved : Bool)
    (acc : RM × List Effect) (roomId : String) : RM × List Effect :=
  match mfind acc.1.workflowRooms roomId with
  | none => acc
  | some room =>
      let userSockets := room.users.filter (fun q => q.2.userId == userId)
      let acc1 := userSockets.foldl
        (permChangeSocket connected now workspaceId room.workflowId newRole isRemoved) acc
      (acc1.1, acc1.2 ++ broadcastPresenceUpdate acc1.1 room.workflowId)

/-- `RoomManager.handlePermissionChange`. -/
def handlePermissionChange (st : RM) (connected : List String) (now : Nat)
    (userId workspaceId : String) (newRole : Option String) (isRemoved : Bool) :
    RM × List Effect :=
  let affectedRoomIds :=
    mkeys (st.workflowRooms.filter (fun p => p.2.users.any (fun q => q.2.userId == userId)))
  if affectedRoomIds.isEmpty then (st, [])
  else affectedRoomIds.foldl
    (permChangeRoom connected now userId workspaceId newRole isRemoved) (st, [])

/-! ## Workspace fanout (from `manager.ts handleWorkspaceResourceChange`) -/

inductive ResourceType where
  | env
  | tools
  | folders
  | mcp
  | workflows
deriving DecidableEq

inductive ResourceOp where
  | create
  | update
  | delete
deriving DecidableEq

def ResourceType.asString : ResourceType → String
  | .env => "env"
  | .tools => "tools"
  | .folders => "folders"
  | .mcp => "mcp"
  | .workflows => "workflows"

def ResourceOp.asString : ResourceOp → String
  | .create => "create"
  | .update => "update"
  | .delete => "delete"

/-- The `eventMap` of `handleWorkspaceResourceChange`.  As in the source,
`tools`, `folders` and `workflows` use the interpolation
`workspace-…-${operation}d` while `env` and `mcp` are fixed strings. -/
def resourceEventName (resourceType : ResourceType) (operation : ResourceOp) : String :=
  match resourceType with
  | .env => "workspace-env-updated"
  | .tools => "workspace-tool-" ++ operation.asString ++ "d"
  | .folders => "workspace-folder-" ++ operation.asString ++ "d"
  | .mcp => "workspace-mcp-updated"
  | .workflows => "workspace-workflow-" ++ operation.asString ++ "d"

/-- `RoomManager.handleWorkspaceResourceChange`: no-op when the workspace room
is absent; otherwise bump `lastModified` and emit the mapped event with the
`{workspaceId, resourceType, operation, data, timestamp}` envelope. -/
def handleWorkspaceResourceChange (st : RM) (now : Nat) (workspaceId : String)
    (resourceType : ResourceType) (operation : ResourceOp) (data : JVal) :
    RM × List Effect :=
  match mfind st.workspaceRooms workspaceId with
  | none => (st, [])
  | some room =>
      ({ st with workspaceRooms :=
           (mset st.workspaceRooms workspaceId
             { room with lastModified := now }) },
       [Effect.emitRoom workspaceId (resourceEventName resourceType operation)
         (.obj [("workspaceId", .str workspaceId),
                ("resourceType", .str resourceType.asString),
                ("operation", .str operation.asString),
                ("data", data),
                ("timestamp", .num now)])])

/-! ## Workspace socket handlers (from `handlers/workspace.ts`) -/

/-- The authenticated socket: `socket.userId` / `socket.userName` are set by
the auth middleware and may be absent. -/
structure SocketInfo where
  id : String
  userId : Option String
  userName : Option String
deriving DecidableEq

/-- Outcome of `verifyWorkspaceAccess`: granted with a (possibly undefined)
role, denied (`hasAccess` false), or a thrown error. -/
inductive AccessOutcome where
  | granted (role : Option String)
  | denied
  | error
deriving DecidableEq

/-- JS `accessInfo.role || 'read'` (undefined, null and the empty string are
all falsy). -/
def jsRoleOrRead : Option String → String
  | some s => if s = "" then "read" else s
  | none => "read"

/-- The `join-workspace` handler.  Auth / access failures emit
`join-workspace-error` and change nothing.  On success: leave the previous
workspace room if different, `socket.join`, create the room if absent,
increment the counter, add the socket to the membership set, set the
reverse index, and confirm with `joined-workspace`. -/
def joinWorkspace (st : RM) (sock : SocketInfo) (workspaceId : String)
    (access : AccessOutcome) (now : Nat) : RM × List Effect :=
  match sock.userId, sock.userName with
  | some _, some _ =>
      match access with
      | .error =>
          (st, [Effect.emitSocket sock.id "join-workspace-error"
            (.obj [("error", .str "Failed to verify workspace access")])])
      | .denied =>
          (st, [Effect.emitSocket sock.id "join-workspace-error"
            (.obj [("error", .str "Access denied to workspace")])])
      | .granted role =>
          let userRole := jsRoleOrRead role
          let prevStep : RM × List Effect :=
            match mfind st.socketToWorkspace sock.id with
            | some cur =>
                if cur.workspaceId ≠ workspaceId then
                  (cleanupUserFromWorkspaceRoom st sock.id cur.workspaceId,
                   [Effect.socketLeave sock.id cur.workspaceId])
                else (st, [])
            | none => (st, [])
          let st1 := prevStep.1
          let room0 :=
            match mfind st1.workspaceRooms workspaceId with
            | some r => r
            | none => createWorkspaceRoom workspaceId now
          let room1 :=
            { room0 with activeConnections := room0.activeConnections + 1,
                         users := sadd room0.users sock.id }
          let st2 :=
            { st1 with workspaceRooms := mset st1.workspaceRooms workspaceId room1,
                       socketToWorkspace :=
                         (mset st1.socketToWorkspace sock.id
                           { workspaceId := workspaceId, role := userRole }) }
          (st2, prevStep.2 ++
            [Effect.socketJoin sock.id workspaceId,
             Effect.emitSocket sock.id "joined-workspace"
               (.obj [("workspaceId", .str workspaceId), ("role", .str userRole),
                      ("activeUsers", .num room1.activeConnections)])])
  | _, _ =>
      (st, [Effect.emitSocket sock.id "join-workspace-error"
        (.obj [("error", .str "Authentication required")])])

/-- The `leave-workspace` handler: `socket.leave`, registry cleanup, confirm
with `left-workspace` (unconditionally, as in the source). -/
def leaveWorkspace (st : RM) (sock : SocketInfo) (workspaceId : String) :
    RM × List Effect :=
  (cleanupUserFromWorkspaceRoom st sock.id workspaceId,
   [Effect.socketLeave sock.id workspaceId,
    Effect.emitSocket sock.id "left-workspace"
      (.obj [("workspaceId", .str workspaceId)])])

/-! ## Spec-modelled workflow join/leave

The `join-workflow` / `leave-workflow` socket handlers live in
`handlers/workflow.ts`, which is not part of the provided sources. -/

/-- Modelled from the spec: the durable stores (§6) — the set of existing
workflow records and the persisted permission store
`(userId, workflowId) → role`.  The broker only reads them at join time. -/
structure DurableStore where
  workflows : List String
  permissions : List ((String × String) × String)

def permLookup : List ((String × String) × String) → String × String → Option String
  | [], _ => none
  | (k, r) :: rest, q => if k = q then some r else permLookup rest q

/-- Modelled from the spec: §4.2 `resolveWorkflowAccess(userId, workflowId)`
consults the persisted permission store; per §9, once the durable workflow
record is gone "the permission/access check alone will deny", so access
requires the durable record to exist. -/
def resolveWorkflowAccess (store : DurableStore) (userId workflowId : String) :
    Option String :=
  if workflowId ∈ store.workflows then permLookup store.permissions (userId, workflowId)
  else none

/-- Modelled from the spec: the `join-workflow` handler (`handlers/workflow.ts`
is not under the provided sources).  §4.2–§4.3: access is resolved at join time
(denial is a join rejection, not a disconnect); on success the handler leaves
the previous workflow if any (via the registry cleanup), creates the room if
absent, adds a Presence entry, updates the reverse index, bumps
`activeConnections`, confirms the join and broadcasts presence. -/
def joinWorkflow (store : DurableStore) (st : RM) (sock : SocketInfo)
    (workflowId : String) (now : Nat) : RM × List Effect :=
  match sock.userId, sock.userName with
  | some uid, some uname =>
      match resolveWorkflowAccess store uid workflowId with
      | none =>
          (st, [Effect.emitSocket sock.id "join-workflow-error"
            (.obj [("error", .str "Access denied to workflow")])])
      | some role =>
          let st1 :=
            match mfind st.socketToWorkflow sock.id with
            | some prev => cleanupUserFromRoom st sock.id prev
            | none => st
          let room0 :=
            match mfind st1.workflowRooms workflowId with
            | some r => r
            | none => createWorkflowRoom workflowId now
          let presence : UserPresence :=
            { userId := uid, workflowId := workflowId, userName := uname,
              socketId := sock.id, joinedAt := now, lastActivity := now,
              role := some role, cursor := none, selection := none,
              avatarUrl := none }
          let room1 :=
            { room0 with users := mset room0.users sock.id presence,
                         activeConnections := room0.activeConnections + 1 }
          let st2 :=
            { st1 with workflowRooms := mset st1.workflowRooms workflowId room1,
                       socketToWorkflow := mset st1.socketToWorkflow sock.id workflowId,
                       userSessions :=
                         (mset st1.userSessions sock.id
                           { userId := uid, userName := uname, avatarUrl := none }) }
          (st2, [Effect.socketJoin sock.id workflowId,
                 Effect.emitSocket sock.id "joined-workflow"
                   (.obj [("workflowId", .str workflowId), ("role", .str role)])] ++
                broadcastPresenceUpdate st2 workflowId)
  | _, _ =>
      (st, [Effect.emitSocket sock.id "join-workflow-error"
        (.obj [("error", .str "Authentication required")])])

/-- Modelled from the spec: the `leave-workflow` handler (`handlers/workflow.ts`
is not under the provided sources).  §4.3 `leaveWorkflow(conn)`: removes the
Presence via the registry cleanup of the currently joined workflow, clears the
reverse index, and broadcasts presence. -/
def leaveWorkflow (st : RM) (sock : SocketInfo) : RM × List Effect :=
  match mfind st.socketToWorkflow sock.id with
  | some wf =>
      let st1 := cleanupUserFromRoom st sock.id wf
      (st1, Effect.socketLeave sock.id wf :: broadcastPresenceUpdate st1 wf)
  | none => (st, [])

/-! ## HTTP ingress (from `routes/http.ts`) -/

/-- The fields the six POST endpoints destructure from the parsed JSON body. -/
structure BodyVal where
  workflowId : String
  timestamp : Nat
  description : Option String
  userId : String
  workspaceId : String
  newRole : Option String
  isRemoved : Bool
  resourceType : ResourceType
  operation : ResourceOp
  data : JVal

/-- An HTTP request: `body = none` models a body on which `JSON.parse` throws. -/
structure HttpReq where
  method : String
  url : String
  body : Option BodyVal

structure HttpResp where
  status : Nat
  body : JVal

def successBody : JVal := .obj [("success", .bool true)]

def errorBody (reason : String) : JVal := .obj [("error", .str reason)]

/-- `createHttpHandler` from `routes/http.ts`: the `GET /health` route, the six
POST notification endpoints (parse body → dispatch → `200 {success:true}`,
parse failure → `500 {error}`), and a 404 fallback. -/
def createHttpHandler (st : RM) (connected : List String) (now : Nat)
    (req : HttpReq) : HttpResp × RM × List Effect :=
  if req.method = "GET" ∧ req.url = "/health" then
    (⟨200, .obj [("status", .str "ok"), ("timestamp", .num now),
                 ("connections", .num (getTotalActiveConnections st))]⟩, st, [])
  else if req.method = "POST" ∧ req.url = "/api/workflow-deleted" then
    match req.body with
    | some v =>
        let r := handleWorkflowDeletion st connected now v.workflowId
        (⟨200, successBody⟩, r.1, r.2)
    | none => (⟨500, errorBody "Failed to process deletion notification"⟩, st, [])
  else if req.method = "POST" ∧ req.url = "/api/workflow-updated" then
    match req.body with
    | some v =>
        let r := handleWorkflowUpdate st now v.workflowId
        (⟨200, successBody⟩, r.1, r.2)
    | none => (⟨500, errorBody "Failed to process update notification"⟩, st, [])
  else if req.method = "POST" ∧ req.url = "/api/copilot-workflow-edit" then
    match req.body with
    | some v =>
        let r := handleCopilotWorkflowEdit st now v.workflowId v.description
        (⟨200, successBody⟩, r.1, r.2)
    | none => (⟨500, errorBody "Failed to process copilot edit notification"⟩, st, [])
  else if req.method = "POST" ∧ req.url = "/api/workflow-reverted" then
    match req.body with
    | some v =>
        let r := handleWorkflowRevert st v.workflowId v.timestamp
        (⟨200, successBody⟩, r.1, r.2)
    | none => (⟨500, errorBody "Failed to process revert notification"⟩, st, [])
  else if req.method = "POST" ∧ req.url = "/api/permission-changed" then
    match req.body with
    | some v =>
        let r := handlePermissionChange st connected now v.userId v.workspaceId
          v.newRole v.isRemoved
        (⟨200, successBody⟩, r.1, r.2)
    | none => (⟨500, errorBody "Failed to process permission change notification"⟩, st, [])
  else if req.method = "POST" ∧ req.url = "/api/workspace-resource-changed" then
    match req.body with
    | some v =>
        let r := handleWorkspaceResourceChange st now v.workspaceId v.resourceType
          v.operation v.data
        (⟨200, successBody⟩, r.1, r.2)
    | none =>
        (⟨500, errorBody "Failed to process workspace resource change notification"⟩, st, [])
  else (⟨404, errorBody "Not found"⟩, st, [])

/-! ## Application-tier notifier (from `lib/realtime/notify-workspace-change.ts`) -/

/-- Possible outcomes of the single `fetch` to the broker. -/
inductive FetchOutcome where
  | ok
  | httpError
  | abortError
  | otherError
deriving DecidableEq

/-- Observable outcome of one `notifyWorkspaceResourceChange` call:
how many fetches were attempted, the abort-timer delay that was armed
(none when the guard returned early), and whether `finally` cleared it. -/
structure NotifyOutcome where
  fetchAttempts : Nat
  abortTimerMs : Option Nat
  timerCleared : Bool
deriving DecidableEq

/-- The `try` body: `fetch` either resolves (ok / non-ok response) or
rejects (abort on timeout, or any other network error). -/
def notifyFetchStep : FetchOutcome → Except String Bool
  | .ok => .ok true
  | .httpError => .ok false
  | .abortError => .error "AbortError"
  | .otherError => .error "fetch failed"

/-- `notifyWorkspaceResourceChange`: empty `workspaceId` returns early;
otherwise a 5000 ms abort timer is armed, a single `fetch` is attempted, every
outcome (ok, non-ok, abort, other error) is only logged, and `finally` clears
the timer.  The promise always resolves — modelled as always returning `.ok`. -/
def notifyWorkspaceResourceChange (workspaceId : String)
    (resourceType : ResourceType) (operation : ResourceOp)
    (fetch : FetchOutcome) : Except String NotifyOutcome :=
  if workspaceId = "" then
    .ok { fetchAttempts := 0, abortTimerMs := none, timerCleared := false }
  else
    let timerMs := 5000
    match notifyFetchStep fetch with
    | .ok _ => .ok { fetchAttempts := 1, abortTimerMs := some timerMs, timerCleared := true }
    | .error _ => .ok { fetchAttempts := 1, abortTimerMs := some timerMs, timerCleared := true }

/-! ## Registry operation steps and invariants

A `Step` is one completed registry operation (socket-handler dispatch or
HTTP-ingress dispatch).  `StepOK` captures the well-formedness of a call
relative to the current state (a leave names the socket's current workspace;
a join does not re-join the socket's current workspace). -/

inductive Step where
  | joinWs (sock : SocketInfo) (workspaceId : String) (access : AccessOutcome) (now : Nat)
  | leaveWs (sock : SocketInfo) (workspaceId : String)
  | joinWf (store : DurableStore) (sock : SocketInfo) (workflowId : String) (now : Nat)
  | leaveWf (sock : SocketInfo)
  | wfDeleted (connected : List String) (now : Nat) (workflowId : String)
  | wfUpdated (now : Nat) (workflowId : String)
  | wfReverted (workflowId : String) (timestamp : Nat)
  | copilotEdit (now : Nat) (workflowId : String) (description : Option String)
  | permChanged (connected : List String) (now : Nat) (userId workspaceId : String)
      (newRole : Option String) (isRemoved : Bool)
  | resourceChanged (now : Nat) (workspaceId : String) (resourceType : ResourceType)
      (operation : ResourceOp) (data : JVal)

def applyStep (st : RM) : Step → RM × List Effect
  | .joinWs sock ws access now => joinWorkspace st sock ws access now
  | .leaveWs sock ws => leaveWorkspace st sock ws
  | .joinWf store sock wf now => joinWorkflow store st sock wf now
  | .leaveWf sock => leaveWorkflow st sock
  | .wfDeleted connected now wf => handleWorkflowDeletion st connected now wf
  | .wfUpdated now wf => handleWorkflowUpdate st now wf
  | .wfReverted wf ts => handleWorkflowRevert st wf ts
  | .copilotEdit now wf d => handleCopilotWorkflowEdit st now wf d
  | .permChanged connected now u ws r rem => handlePermissionChange st connected now u ws r rem
  | .resourceChanged now ws rt op d => handleWorkspaceResourceChange st now ws rt op d

def runSteps (st : RM) : List Step → RM
  | [] => st
  | s :: rest => runSteps (applyStep st s).1 rest

/-- Well-formedness of a step at a state: a `join-workspace` does not name the
socket's current workspace, and a `leave-workspace` names exactly the socket's
current workspace.  All other operations are unconstrained. -/
def StepOK (st : RM) : Step → Prop
  | .joinWs sock ws _ _ =>
      ∀ e, mfind st.socketToWorkspace sock.id = some e → e.workspaceId ≠ ws
  | .leaveWs sock ws =>
      ∃ e, mfind st.socketToWorkspace sock.id = some e ∧ e.workspaceId = ws
  | _ => True

def GoodTrace : RM → List Step → Prop
  | _, [] => True
  | st, s :: rest => StepOK st s ∧ GoodTrace (applyStep st s).1 rest

/-- Invariants of the workspace-room side of the registry: room keys are
duplicate-free, each registered room has a duplicate-free non-empty membership
set whose cardinality equals `activeConnections`, and forward membership
agrees with the `socketToWorkspace` reverse index. -/
def WsInv (st : RM) : Prop :=
  (mkeys st.workspaceRooms).Nodup ∧
  (∀ k room, mfind st.workspaceRooms k = some room →
     room.users.Nodup ∧ room.activeConnections = room.users.length ∧ room.users ≠ []) ∧
  (∀ s ws, (∃ e, mfind st.socketToWorkspace s = some e ∧ e.workspaceId = ws) ↔
           (∃ room, mfind st.workspaceRooms ws = some room ∧ s ∈ room.users))

/-- Invariants of the workflow-room side: like `WsInv`, and additionally each
room is registered under its own `workflowId`. -/
def WfInv (st : RM) : Prop :=
  (mkeys st.workflowRooms).Nodup ∧
  (∀ k room, mfind st.workflowRooms k = some room →
     (mkeys room.users).Nodup ∧ room.activeConnections = room.users.length ∧
     room.users ≠ [] ∧ room.workflowId = k) ∧
  (∀ s w, mfind st.socketToWorkflow s = some w ↔
          (∃ room, mfind st.workflowRooms w = some room ∧ (mfind room.users s).isSome))

def Inv (st : RM) : Prop := WsInv st ∧ WfInv st

/-! ## Concrete instances used by the closed theorems -/

def sock1 : SocketInfo := ⟨"s1", some "u1", some "Alice"⟩

def sock2 : SocketInfo := ⟨"s2", some "u1", some "Alice"⟩

def store1 : DurableStore := ⟨["w1"], [(("u1", "w1"), "admin")]⟩

def sampleBody : BodyVal :=
  ⟨"w1", 0, Option.none, "u1", "ws1", Option.none, false, .env, .update, .null⟩

/-- One socket `s1` of user `u1` joined to workflow room `w1`. -/
def stWf1 : RM := (joinWorkflow store1 RM.initial sock1 "w1" 1).1

/-- One socket `s1` of user `u1` joined to workspace room `ws1`. -/
def stWs1 : RM := (joinWorkspace RM.initial sock1 "ws1" (.granted (some "admin")) 1).1

/-- Socket `s1` joined to both workflow room `w1` and workspace room `ws1`. -/
def stBoth : RM := (joinWorkspace stWf1 sock1 "ws1" (.granted (some "admin")) 1).1

/-- A workspace room `ws1` with one member, for fanout tests. -/
def stMcp : RM :=
  { RM.initial with workspaceRooms :=
      [("ws1", { workspaceId := "ws1", users := ["s1"], lastModified := 0,
                 activeConnections := 1 })] }

/-- `stBoth` after `handlePermissionChange` with `isRemoved = true`. -/
def stRevoked : RM := (handlePermissionChange stBoth ["s1"] 9 "u1" "ws1" Option.none true).1

/-! # Theorems

The remainder of the file is theorems: first the library lemmas about the
map/set operations, then the invariant-preservation results and the claim
theorems. -/

/-! ### Lemmas about the map and set operations -/

theorem mkeys_nil {α : Type} : mkeys ([] : List (String × α)) = [] := rfl

theorem mkeys_cons {α : Type} (p : String × α) (rest : List (String × α)) :
    mkeys (p :: rest) = p.1 :: mkeys rest := rfl

theorem mfind_mset_self {α : Type} (m : List (String × α)) (k : String) (v : α) :
    mfind (mset m k v) k = some v := by
  induction m with
  | nil => simp [mset, mfind]
  | cons p rest ih =>
      by_cases h : p.1 = k
      · simp [mset, h, mfind]
      · simp [mset, h, mfind, ih]

theorem mfind_mset_ne {α : Type} (m : List (String × α)) (k k' : String) (v : α)
    (h : k' ≠ k) : mfind (mset m k v) k' = mfind m k' := by
  have hne : ¬ k = k' := fun he => h he.symm
  induction m with
  | nil => simp [mset, mfind, hne]
  | cons p rest ih =>
      by_cases hk : p.1 = k
      · have h1 : mset (p :: rest) k v = (k, v) :: rest := by simp [mset, hk]
        rw [h1]
        simp [mfind, hne, hk]

      · have h1 : mset (p :: rest) k v = p :: mset rest k v := by simp [mset, hk]
        rw [h1]
        by_cases hk' : p.1 = k'
        · simp [mfind, hk']
        · simp [mfind, hk', ih]

theorem mfind_mdel_self {α : Type} (m : List (String × α)) (k : String) :
    mfind (mdel m k) k = none := by
  induction m with
  | nil => simp [mdel, mfind]
  | cons p rest ih =>
      by_cases h : p.1 = k
      · simp [mdel, h, ih]
      · simp [mdel, h, mfind, ih]

theorem mfind_mdel_ne {α : Type} (m : List (String × α)) (k k' : String)
    (h : k' ≠ k) : mfind (mdel m k) k' = mfind m k' := by
  induction m with
  | nil => simp [mdel]
  | cons p rest ih =>
      by_cases hk : p.1 = k
      · have h1 : mdel (p :: rest) k = mdel rest k := by simp [mdel, hk]
        rw [h1, ih]
        have h2 : ¬ p.1 = k' := by
          rw [hk]
          intro he
          exact h he.symm
        simp [mfind, h2]
      · have h1 : mdel (p :: rest) k = p :: mdel rest k := by simp [mdel, hk]
        rw [h1]
        by_cases hk' : p.1 = k'
        · simp [mfind, hk']
        · simp [mfind, hk', ih]

theorem mkeys_mset_of_isSome {α : Type} (m : List (String × α)) (k : String) (v : α)
    (h : (mfind m k).isSome) : mkeys (mset m k v) = mkeys m := by
  induction m with
  | nil => simp [mfind] at h
  | cons p rest ih =>
      by_cases hk : p.1 = k
      · simp [mset, hk, mkeys]
      · simp [mfind, hk] at h
        simp [mset, hk, mkeys] at ih ⊢
        exact ih h

theorem mkeys_mset_of_none {α : Type} (m : List (String × α)) (k : String) (v : α)
    (h : mfind m k = none) : mkeys (mset m k v) = mkeys m ++ [k] := by
  induction m with
  | nil => simp [mset, mkeys]
  | cons p rest ih =>
      by_cases hk : p.1 = k
      · simp [mfind, hk] at h
      · simp [mfind, hk] at h
        simp [mset, hk, mkeys] at ih ⊢
        exact ih h

theorem length_mset_of_isSome {α : Type} (m : List (String × α)) (k : String) (v : α)
    (h : (mfind m k).isSome) : (mset m k v).length = m.length := by
  have h1 := mkeys_mset_of_isSome m k v h
  have h2 : (mkeys (mset m k v)).length = (mkeys m).length := by rw [h1]
  simpa [mkeys] using h2

theorem not_mem_mkeys_of_mfind_none {α : Type} {m : List (String × α)} {k : String}
    (h : mfind m k = none) : k ∉ mkeys m := by
  induction m with
  | nil => simp [mkeys]
  | cons p rest ih =>
      by_cases hk : p.1 = k
      · simp [mfind, hk] at h
      · simp [mfind, hk] at h
        rw [mkeys_cons]
        intro hmem
        rcases List.mem_cons.1 hmem with he | hm
        · exact hk he.symm
        · exact ih h hm

theorem mem_mkeys_mdel {α : Type} {m : List (String × α)} {k x : String}
    (h : x ∈ mkeys (mdel m k)) : x ∈ mkeys m := by
  induction m with
  | nil => simp [mdel, mkeys] at h
  | cons p rest ih =>
      by_cases hk : p.1 = k
      · have h1 : mdel (p :: rest) k = mdel rest k := by simp [mdel, hk]
        rw [h1] at h
        rw [mkeys_cons]
        exact List.mem_cons_of_mem _ (ih h)
      · have h1 : mdel (p :: rest) k = p :: mdel rest k := by simp [mdel, hk]
        rw [h1, mkeys_cons] at h
        rw [mkeys_cons]
        rcases List.mem_cons.1 h with he | hm
        · exact he ▸ List.mem_cons_self _ _
        · exact List.mem_cons_of_mem _ (ih hm)

theorem nodup_mkeys_mset {α : Type} (m : List (String × α)) (k : String) (v : α)
    (h : (mkeys m).Nodup) : (mkeys (mset m k v)).Nodup := by
  rcases hf : mfind m k with _ | w
  · rw [mkeys_mset_of_none m k v hf]
    have hk : k ∉ mkeys m := not_mem_mkeys_of_mfind_none hf
    simp [List.nodup_append, h, hk]
  · rw [mkeys_mset_of_isSome m k v (by simp [hf])]
    exact h

theorem nodup_mkeys_mdel {α : Type} (m : List (String × α)) (k : String)
    (h : (mkeys m).Nodup) : (mkeys (mdel m k)).Nodup := by
  induction m with
  | nil => simp [mdel, mkeys]
  | cons p rest ih =>
      rw [mkeys_cons] at h
      rcases List.nodup_cons.1 h with ⟨hp, hrest⟩
      by_cases hk : p.1 = k
      · have h1 : mdel (p :: rest) k = mdel rest k := by simp [mdel, hk]
        rw [h1]
        exact ih hrest
      · have h1 : mdel (p :: rest) k = p :: mdel rest k := by simp [mdel, hk]
        rw [h1, mkeys_cons]
        exact List.nodup_cons.2 ⟨fun hm => hp (mem_mkeys_mdel hm), ih hrest⟩

theorem mfind_eq_some_of_mem {α : Type} {m : List (String × α)} {k : String} {v : α}
    (hnd : (mkeys m).Nodup) (hmem : (k, v) ∈ m) : mfind m k = some v := by
  induction m with
  | nil => simp at hmem
  | cons p rest ih =>
      rw [mkeys_cons] at hnd
      rcases List.nodup_cons.1 hnd with ⟨hp, hrest⟩
      rcases List.mem_cons.1 hmem with he | hm
      · rw [← he]
        simp [mfind]
      · have hk : ¬ p.1 = k := by
          intro he2
          apply hp
          rw [he2]
          exact List.mem_map.2 ⟨(k, v), hm, rfl⟩
        simp [mfind, hk]
        exact ih hrest hm

theorem mem_of_mfind_eq_some {α : Type} {m : List (String × α)} {k : String} {v : α}
    (h : mfind m k = some v) : (k, v) ∈ m := by
  induction m with
  | nil => simp [mfind] at h
  | cons p rest ih =>
      cases p with
      | mk a b =>
        by_cases hk : a = k
        · simp [mfind, hk] at h
          subst hk
          subst h
          exact List.mem_cons_self _ _
        · simp [mfind, hk] at h
          exact List.mem_cons_of_mem _ (ih h)

theorem mdel_of_none {α : Type} (m : List (String × α)) (k : String)
    (h : mfind m k = none) : mdel m k = m := by
  induction m with
  | nil => simp [mdel]
  | cons p rest ih =>
      by_cases hk : p.1 = k
      · simp [mfind, hk] at h
      · simp [mfind, hk] at h
        simp [mdel, hk, ih h]

theorem length_mdel_of_some {α : Type} (m : List (String × α)) (k : String) {v : α}
    (hnd : (mkeys m).Nodup) (h : mfind m k = some v) :
    (mdel m k).length + 1 = m.length := by
  induction m with
  | nil => simp [mfind] at h
  | cons p rest ih =>
      rw [mkeys_cons] at hnd
      rcases List.nodup_cons.1 hnd with ⟨hp, hrest⟩
      by_cases hk : p.1 = k
      · have hnone : mfind rest k = none := by
          rcases hf : mfind rest k with _ | w
          · rfl
          · exfalso
            apply hp
            rw [hk]
            exact List.mem_map.2 ⟨(k, w), mem_of_mfind_eq_some hf, rfl⟩
        simp [mdel, hk, mdel_of_none rest k hnone]
      · simp [mfind, hk] at h
        have h2 := ih hrest h
        have h1 : mdel (p :: rest) k = p :: mdel rest k := by simp [mdel, hk]
        rw [h1]
        simp at h2 ⊢
        omega

theorem sadd_nodup (l : List String) (x : String) (h : l.Nodup) :
    (sadd l x).Nodup := by
  by_cases hx : x ∈ l
  · simpa [sadd, hx] using h
  · simp [sadd, hx, List.nodup_append, h]

theorem length_sadd_of_not_mem (l : List String) (x : String) (h : x ∉ l) :
    (sadd l x).length = l.length + 1 := by
  simp [sadd, h]

theorem mem_sadd_self (l : List String) (x : String) : x ∈ sadd l x := by
  by_cases hx : x ∈ l
  · simp [sadd, hx]
  · simp [sadd, hx]

theorem mem_sadd_iff (l : List String) (x y : String) :
    y ∈ sadd l x ↔ y ∈ l ∨ y = x := by
  by_cases hx : x ∈ l
  · simp [sadd, hx]
    intro he
    rw [he]
    exact hx
  · simp [sadd, hx, or_comm]

theorem mem_sdel_iff (l : List String) (x y : String) :
    y ∈ sdel l x ↔ y ∈ l ∧ y ≠ x := by
  simp [sdel]

theorem sdel_nodup (l : List String) (x : String) (h : l.Nodup) :
    (sdel l x).Nodup := h.filter _

theorem sdel_of_not_mem (l : List String) (x : String) (h : x ∉ l) :
    sdel l x = l := by
  apply List.filter_eq_self.2
  intro b hb
  simp
  intro he
  exact h (he ▸ hb)

theorem length_sdel_of_mem (l : List String) (x : String) (hnd : l.Nodup)
    (h : x ∈ l) : (sdel l x).length + 1 = l.length := by
  induction l with
  | nil => simp at h
  | cons a rest ih =>
      rcases List.nodup_cons.1 hnd with ⟨ha, hrest⟩
      by_cases hax : a = x
      · subst hax
        have h1 : sdel (a :: rest) a = sdel rest a := by simp [sdel]
        rw [h1, sdel_of_not_mem rest a ha]
        simp
      · rcases List.mem_cons.1 h with he | hm
        · exact absurd he.symm hax
        · have h2 := ih hrest hm
          have h1 : sdel (a :: rest) x = a :: sdel rest x := by simp [sdel, hax]
          rw [h1]
          simp at h2 ⊢
          omega

/-! ## Component characterizations of the registry operations -/

theorem wsInv_of_eq {st st' : RM} (h1 : st'.workspaceRooms = st.workspaceRooms)
    (h2 : st'.socketToWorkspace = st.socketToWorkspace) (h : WsInv st) : WsInv st' := by
  unfold WsInv at h ⊢
  rw [h1, h2]
  exact h

theorem wfInv_of_eq {st st' : RM} (h1 : st'.workflowRooms = st.workflowRooms)
    (h2 : st'.socketToWorkflow = st.socketToWorkflow) (h : WfInv st) : WfInv st' := by
  unfold WfInv at h ⊢
  rw [h1, h2]
  exact h

theorem cleanupWf_components (st : RM) (s wf : String) :
    (cleanupUserFromRoom st s wf).socketToWorkflow = mdel st.socketToWorkflow s ∧
    (cleanupUserFromRoom st s wf).userSessions = mdel st.userSessions s ∧
    (cleanupUserFromRoom st s wf).workspaceRooms = st.workspaceRooms ∧
    (cleanupUserFromRoom st s wf).socketToWorkspace = st.socketToWorkspace := by
  unfold cleanupUserFromRoom
  rcases hr : mfind st.workflowRooms wf with _ | room
  · simp
  · by_cases h : room.activeConnections - 1 = 0 <;> simp [h]

theorem cleanupWf_rooms_none (st : RM) (s wf : String)
    (hr : mfind st.workflowRooms wf = none) :
    (cleanupUserFromRoom st s wf).workflowRooms = st.workflowRooms := by
  unfold cleanupUserFromRoom
  simp [hr]

theorem cleanupWf_rooms (st : RM) (s wf : String) {room : WorkflowRoom}
    (hr : mfind st.workflowRooms wf = some room) :
    (cleanupUserFromRoom st s wf).workflowRooms =
      (if room.activeConnections - 1 = 0 then mdel st.workflowRooms wf
       else mset st.workflowRooms wf
         { room with users := mdel room.users s,
                     activeConnections := room.activeConnections - 1 }) := by
  unfold cleanupUserFromRoom
  by_cases h : room.activeConnections - 1 = 0 <;> simp [hr, h]

theorem cleanupWs_components (st : RM) (s ws : String) :
    (cleanupUserFromWorkspaceRoom st s ws).socketToWorkspace =
      mdel st.socketToWorkspace s ∧
    (cleanupUserFromWorkspaceRoom st s ws).workflowRooms = st.workflowRooms ∧
    (cleanupUserFromWorkspaceRoom st s ws).socketToWorkflow = st.socketToWorkflow ∧
    (cleanupUserFromWorkspaceRoom st s ws).userSessions = st.userSessions := by
  unfold cleanupUserFromWorkspaceRoom
  rcases hr : mfind st.workspaceRooms ws with _ | room
  · simp
  · by_cases h : room.activeConnections - 1 = 0 <;> simp [h]

theorem cleanupWs_rooms_none (st : RM) (s ws : String)
    (hr : mfind st.workspaceRooms ws = none) :
    (cleanupUserFromWorkspaceRoom st s ws).workspaceRooms = st.workspaceRooms := by
  unfold cleanupUserFromWorkspaceRoom
  simp [hr]

theorem cleanupWs_rooms (st : RM) (s ws : String) {room : WorkspaceRoom}
    (hr : mfind st.workspaceRooms ws = some room) :
    (cleanupUserFromWorkspaceRoom st s ws).workspaceRooms =
      (if room.activeConnections - 1 = 0 then mdel st.workspaceRooms ws
       else mset st.workspaceRooms ws
         { room with users := sdel room.users s,
                     activeConnections := room.activeConnections - 1 }) := by
  unfold cleanupUserFromWorkspaceRoom
  by_cases h : room.activeConnections - 1 = 0 <;> simp [hr, h]

theorem mfind_mset_self_eq {α : Type} {m : List (String × α)} {k : String} {v w : α}
    (h : mfind (mset m k v) k = some w) : w = v := by
  rw [mfind_mset_self] at h
  exact (Option.some.inj h).symm

theorem wsInv_not_mem_of_idx_none {st : RM} (hinv : WsInv st) {s : String}
    (h : mfind st.socketToWorkspace s = none) :
    ∀ ws room, mfind st.workspaceRooms ws = some room → s ∉ room.users := by
  intro ws room hr hmem
  rcases (hinv.2.2 s ws).2 ⟨room, hr, hmem⟩ with ⟨e, he, -⟩
  rw [h] at he
  exact Option.noConfusion he

/-- Cleaning a socket out of the workspace room named by its own reverse-index
entry preserves the workspace invariants and clears the index entry. -/
theorem cleanupWs_inv (st : RM) (s ws : String) (hinv : WsInv st)
    (hs : ∃ e, mfind st.socketToWorkspace s = some e ∧ e.workspaceId = ws) :
    WsInv (cleanupUserFromWorkspaceRoom st s ws) ∧
    mfind (cleanupUserFromWorkspaceRoom st s ws).socketToWorkspace s = none := by
  obtain ⟨hnd, hconds, hcons⟩ := hinv
  obtain ⟨room, hroom, hsmem⟩ := (hcons s ws).1 hs
  obtain ⟨hund, hcnt, hnemp⟩ := hconds ws room hroom
  obtain ⟨hidx, -, -, -⟩ := cleanupWs_components st s ws
  have hrooms := cleanupWs_rooms st s ws hroom
  obtain ⟨e, he, hews⟩ := hs
  have hlen : (sdel room.users s).length + 1 = room.users.length :=
    length_sdel_of_mem _ _ hund hsmem
  have hlpos : 0 < room.users.length := List.length_pos.2 (List.ne_nil_of_mem hsmem)
  have hidxs : mfind (cleanupUserFromWorkspaceRoom st s ws).socketToWorkspace s = none := by
    rw [hidx]
    exact mfind_mdel_self _ _
  by_cases hz : room.activeConnections - 1 = 0
  · rw [if_pos hz] at hrooms
    have hl1 : room.users.length = 1 := by omega
    obtain ⟨a, ha⟩ := List.length_eq_one.1 hl1
    have husers : room.users = [s] := by
      have hsa : s = a := by
        rw [ha] at hsmem
        simpa using hsmem
      rw [ha, hsa]
    refine ⟨⟨?_, ?_, ?_⟩, hidxs⟩
    · rw [hrooms]
      exact nodup_mkeys_mdel _ _ hnd
    · intro k r hkr
      rw [hrooms] at hkr
      by_cases hk : k = ws
      · subst hk
        rw [mfind_mdel_self] at hkr
        exact Option.noConfusion hkr
      · rw [mfind_mdel_ne _ _ _ hk] at hkr
        exact hconds k r hkr
    · intro s' ws'
      constructor
      · rintro ⟨e', he', hws'⟩
        have hne : s' ≠ s := by
          intro hSS
          subst hSS
          rw [hidxs] at he'
          exact Option.noConfusion he'
        rw [hidx, mfind_mdel_ne _ _ _ hne] at he'
        obtain ⟨room2, hr2, hm2⟩ := (hcons s' ws').1 ⟨e', he', hws'⟩
        have hwsne : ws' ≠ ws := by
          intro hWW
          subst hWW
          rw [hroom] at hr2
          injection hr2 with hr2e
          rw [← hr2e, husers] at hm2
          simp at hm2
          exact hne hm2
        rw [hrooms, mfind_mdel_ne _ _ _ hwsne]
        exact ⟨room2, hr2, hm2⟩
      · rintro ⟨room2, hr2, hm2⟩
        rw [hrooms] at hr2
        have hwsne : ws' ≠ ws := by
          intro hWW
          subst hWW
          rw [mfind_mdel_self] at hr2
          exact Option.noConfusion hr2
        rw [mfind_mdel_ne _ _ _ hwsne] at hr2
        obtain ⟨e', he', hews'⟩ := (hcons s' ws').2 ⟨room2, hr2, hm2⟩
        have hne : s' ≠ s := by
          intro hSS
          subst hSS
          rw [he] at he'
          injection he' with hee
          rw [← hee, hews] at hews'
          exact hwsne hews'.symm
        rw [hidx, mfind_mdel_ne _ _ _ hne]
        exact ⟨e', he', hews'⟩
  · rw [if_neg hz] at hrooms
    have hl2 : 0 < (sdel room.users s).length := by omega
    refine ⟨⟨?_, ?_, ?_⟩, hidxs⟩
    · rw [hrooms]
      exact nodup_mkeys_mset _ _ _ hnd
    · intro k r hkr
      rw [hrooms] at hkr
      by_cases hk : k = ws
      · subst hk
        have hre := mfind_mset_self_eq hkr
        subst hre
        refine ⟨sdel_nodup _ _ hund, by simp; omega, ?_⟩
        show sdel room.users s ≠ []
        intro hnil
        rw [hnil] at hl2
        simp at hl2
      · rw [mfind_mset_ne _ _ _ _ hk] at hkr
        exact hconds k r hkr
    · intro s' ws'
      constructor
      · rintro ⟨e', he', hws'⟩
        have hne : s' ≠ s := by
          intro hSS
          subst hSS
          rw [hidxs] at he'
          exact Option.noConfusion he'
        rw [hidx, mfind_mdel_ne _ _ _ hne] at he'
        obtain ⟨room2, hr2, hm2⟩ := (hcons s' ws').1 ⟨e', he', hws'⟩
        by_cases hWW : ws' = ws
        · subst hWW
          rw [hroom] at hr2
          injection hr2 with hr2e
          rw [hrooms]
          refine ⟨_, mfind_mset_self _ _ _, ?_⟩
          show s' ∈ sdel room.users s
          rw [mem_sdel_iff]
          exact ⟨hr2e ▸ hm2, hne⟩
        · rw [hrooms, mfind_mset_ne _ _ _ _ hWW]
          exact ⟨room2, hr2, hm2⟩
      · rintro ⟨room2, hr2, hm2⟩
        rw [hrooms] at hr2
        by_cases hWW : ws' = ws
        · rw [hWW] at hr2 ⊢
          have hre := mfind_mset_self_eq hr2
          subst hre
          have hm2' : s' ∈ sdel room.users s := hm2
          rw [mem_sdel_iff] at hm2'
          obtain ⟨e', he', hews'⟩ := (hcons s' ws).2 ⟨room, hroom, hm2'.1⟩
          rw [hidx, mfind_mdel_ne _ _ _ hm2'.2]
          exact ⟨e', he', hews'⟩
        · rw [mfind_mset_ne _ _ _ _ hWW] at hr2
          obtain ⟨e', he', hews'⟩ := (hcons s' ws').2 ⟨room2, hr2, hm2⟩
          have hne : s' ≠ s := by
            intro hSS
            subst hSS
            rw [he] at he'
            injection he' with hee
            rw [← hee, hews] at hews'
            exact hWW hews'.symm
          rw [hidx, mfind_mdel_ne _ _ _ hne]
          exact ⟨e', he', hews'⟩

theorem wfInv_no_entry_of_idx_none {st : RM} (hinv : WfInv st) {s : String}
    (h : mfind st.socketToWorkflow s = none) :
    ∀ w room, mfind st.workflowRooms w = some room → mfind room.users s = none := by
  intro w room hr
  rcases hm : mfind room.users s with _ | p
  · rfl
  · have := (hinv.2.2 s w).2 ⟨room, hr, by simp [hm]⟩
    rw [h] at this
    exact Option.noConfusion this

/-- Cleaning a socket out of the workflow room named by its own reverse-index
entry preserves the workflow invariants and clears the index entry. -/
theorem cleanupWf_inv (st : RM) (s wf : String) (hinv : WfInv st)
    (hs : mfind st.socketToWorkflow s = some wf) :
    WfInv (cleanupUserFromRoom st s wf) ∧
    mfind (cleanupUserFromRoom st s wf).socketToWorkflow s = none := by
  obtain ⟨hnd, hconds, hcons⟩ := hinv
  obtain ⟨room, hroom, hsmem⟩ := (hcons s wf).1 hs
  obtain ⟨p, hsp⟩ := Option.isSome_iff_exists.1 hsmem
  obtain ⟨hund, hcnt, hnemp, hid⟩ := hconds wf room hroom
  obtain ⟨hidx, -, -, -⟩ := cleanupWf_components st s wf
  have hrooms := cleanupWf_rooms st s wf hroom
  have hlen : (mdel room.users s).length + 1 = room.users.length :=
    length_mdel_of_some _ _ hund hsp
  have hmemp : (s, p) ∈ room.users := mem_of_mfind_eq_some hsp
  have hlpos : 0 < room.users.length := List.length_pos.2 (List.ne_nil_of_mem hmemp)
  have hidxs : mfind (cleanupUserFromRoom st s wf).socketToWorkflow s = none := by
    rw [hidx]
    exact mfind_mdel_self _ _
  by_cases hz : room.activeConnections - 1 = 0
  · rw [if_pos hz] at hrooms
    have hl1 : room.users.length = 1 := by omega
    obtain ⟨a, ha⟩ := List.length_eq_one.1 hl1
    have husers : room.users = [(s, p)] := by
      have hsa : (s, p) = a := by
        rw [ha] at hmemp
        simpa using hmemp
      rw [ha, hsa]
    refine ⟨⟨?_, ?_, ?_⟩, hidxs⟩
    · rw [hrooms]
      exact nodup_mkeys_mdel _ _ hnd
    · intro k r hkr
      rw [hrooms] at hkr
      by_cases hk : k = wf
      · subst hk
        rw [mfind_mdel_self] at hkr
        exact Option.noConfusion hkr
      · rw [mfind_mdel_ne _ _ _ hk] at hkr
        exact hconds k r hkr
    · intro s' w'
      constructor
      · intro he'
        have hne : s' ≠ s := by
          intro hSS
          subst hSS
          rw [hidxs] at he'
          exact Option.noConfusion he'
        rw [hidx, mfind_mdel_ne _ _ _ hne] at he'
        obtain ⟨room2, hr2, hm2⟩ := (hcons s' w').1 he'
        have hwne : w' ≠ wf := by
          intro hWW
          subst hWW
          rw [hroom] at hr2
          injection hr2 with hr2e
          rw [← hr2e, husers] at hm2
          rcases hm2' : mfind [(s, p)] s' with _ | q
          · rw [hm2'] at hm2
            simp at hm2
          · have : s = s' := by
              by_contra hcon
              rw [show mfind [(s, p)] s' = none by simp [mfind, hcon]] at hm2'
              exact Option.noConfusion hm2'
            exact hne this.symm
        rw [hrooms, mfind_mdel_ne _ _ _ hwne]
        exact ⟨room2, hr2, hm2⟩
      · rintro ⟨room2, hr2, hm2⟩
        rw [hrooms] at hr2
        have hwne : w' ≠ wf := by
          intro hWW
          subst hWW
          rw [mfind_mdel_self] at hr2
          exact Option.noConfusion hr2
        rw [mfind_mdel_ne _ _ _ hwne] at hr2
        have he' := (hcons s' w').2 ⟨room2, hr2, hm2⟩
        have hne : s' ≠ s := by
          intro hSS
          subst hSS
          rw [hs] at he'
          injection he' with hee
          exact hwne hee.symm
        rw [hidx, mfind_mdel_ne _ _ _ hne]
        exact he'
  · rw [if_neg hz] at hrooms
    have hl2 : 0 < (mdel room.users s).length := by omega
    refine ⟨⟨?_, ?_, ?_⟩, hidxs⟩
    · rw [hrooms]
      exact nodup_mkeys_mset _ _ _ hnd
    · intro k r hkr
      rw [hrooms] at hkr
      by_cases hk : k = wf
      · subst hk
        have hre := mfind_mset_self_eq hkr
        subst hre
        refine ⟨nodup_mkeys_mdel _ _ hund, by simp; omega, ?_, hid⟩
        show mdel room.users s ≠ []
        intro hnil
        rw [hnil] at hl2
        simp at hl2
      · rw [mfind_mset_ne _ _ _ _ hk] at hkr
        exact hconds k r hkr
    · intro s' w'
      constructor
      · intro he'
        have hne : s' ≠ s := by
          intro hSS
          subst hSS
          rw [hidxs] at he'
          exact Option.noConfusion he'
        rw [hidx, mfind_mdel_ne _ _ _ hne] at he'
        obtain ⟨room2, hr2, hm2⟩ := (hcons s' w').1 he'
        by_cases hWW : w' = wf
        · rw [hWW] at hr2 ⊢
          rw [hroom] at hr2
          injection hr2 with hr2e
          rw [hrooms]
          refine ⟨_, mfind_mset_self _ _ _, ?_⟩
          show (mfind (mdel room.users s) s').isSome
          rw [mfind_mdel_ne _ _ _ hne]
          rw [hr2e]
          exact hm2
        · rw [hrooms, mfind_mset_ne _ _ _ _ hWW]
          exact ⟨room2, hr2, hm2⟩
      · rintro ⟨room2, hr2, hm2⟩
        rw [hrooms] at hr2
        by_cases hWW : w' = wf
        · rw [hWW] at hr2 ⊢
          have hre := mfind_mset_self_eq hr2
          subst hre
          have hm2' : (mfind (mdel room.users s) s').isSome := hm2
          have hne : s' ≠ s := by
            intro hSS
            subst hSS
            rw [mfind_mdel_self] at hm2'
            simp at hm2'
          rw [mfind_mdel_ne _ _ _ hne] at hm2'
          have he' := (hcons s' wf).2 ⟨room, hroom, hm2'⟩
          rw [hidx, mfind_mdel_ne _ _ _ hne]
          exact he'
        · rw [mfind_mset_ne _ _ _ _ hWW] at hr2
          have he' := (hcons s' w').2 ⟨room2, hr2, hm2⟩
          have hne : s' ≠ s := by
            intro hSS
            subst hSS
            rw [hs] at he'
            injection he' with hee
            exact hWW hee.symm
          rw [hidx, mfind_mdel_ne _ _ _ hne]
          exact he'

/-- Core of the `join-workspace` success path: adding a socket with no current
workspace to a room (existing or freshly created) preserves the invariants. -/
theorem wsJoin_core (st1 : RM) (s ws userRole : String) (room0 : WorkspaceRoom)
    (hinv : WsInv st1) (hidle : mfind st1.socketToWorkspace s = none)
    (hroom0 : mfind st1.workspaceRooms ws = some room0 ∨
      (mfind st1.workspaceRooms ws = none ∧ room0.users = [] ∧
       room0.activeConnections = 0)) :
    WsInv { st1 with
      workspaceRooms := mset st1.workspaceRooms ws
        { room0 with activeConnections := room0.activeConnections + 1,
                     users := sadd room0.users s },
      socketToWorkspace := mset st1.socketToWorkspace s
        { workspaceId := ws, role := userRole } } := by
  obtain ⟨hnd, hconds, hcons⟩ := hinv
  have hnotmem : s ∉ room0.users := by
    rcases hroom0 with h0 | ⟨-, hu0, -⟩
    · exact wsInv_not_mem_of_idx_none ⟨hnd, hconds, hcons⟩ hidle ws room0 h0
    · rw [hu0]
      exact List.not_mem_nil s
  have hnodup0 : room0.users.Nodup := by
    rcases hroom0 with h0 | ⟨-, hu0, -⟩
    · exact (hconds ws room0 h0).1
    · rw [hu0]
      exact List.nodup_nil
  have hcnt0 : room0.activeConnections = room0.users.length := by
    rcases hroom0 with h0 | ⟨-, hu0, hc0⟩
    · exact (hconds ws room0 h0).2.1
    · rw [hu0, hc0]
      rfl
  refine ⟨nodup_mkeys_mset _ _ _ hnd, ?_, ?_⟩
  · intro k r hkr
    by_cases hk : k = ws
    · subst hk
      have hre := mfind_mset_self_eq hkr
      subst hre
      refine ⟨sadd_nodup _ _ hnodup0, ?_, ?_⟩
      · show room0.activeConnections + 1 = (sadd room0.users s).length
        rw [length_sadd_of_not_mem _ _ hnotmem, hcnt0]
      · show sadd room0.users s ≠ []
        exact List.ne_nil_of_mem (mem_sadd_self _ _)
    · rw [mfind_mset_ne _ _ _ _ hk] at hkr
      exact hconds k r hkr
  · intro s' ws'
    constructor
    · rintro ⟨e', he', hw'⟩
      by_cases hss : s' = s
      · subst hss
        rw [mfind_mset_self] at he'
        injection he' with hee
        rw [← hee] at hw'
        simp at hw'
        subst hw'
        refine ⟨_, mfind_mset_self _ _ _, ?_⟩
        show s' ∈ sadd room0.users s'
        exact mem_sadd_self _ _
      · rw [mfind_mset_ne _ _ _ _ hss] at he'
        obtain ⟨room2, hr2, hm2⟩ := (hcons s' ws').1 ⟨e', he', hw'⟩
        by_cases hWW : ws' = ws
        · subst hWW
          rcases hroom0 with h0 | ⟨h0, -, -⟩
          · rw [h0] at hr2
            injection hr2 with hre
            refine ⟨_, mfind_mset_self _ _ _, ?_⟩
            show s' ∈ sadd room0.users s
            rw [mem_sadd_iff]
            left
            rw [← hre] at hm2
            exact hm2
          · rw [h0] at hr2
            exact Option.noConfusion hr2
        · rw [mfind_mset_ne _ _ _ _ hWW]
          exact ⟨room2, hr2, hm2⟩
    · rintro ⟨room2, hr2, hm2⟩
      by_cases hWW : ws' = ws
      · rw [hWW] at hr2 ⊢
        have hre := mfind_mset_self_eq hr2
        subst hre
        have hm2' : s' ∈ sadd room0.users s := hm2
        rw [mem_sadd_iff] at hm2'
        rcases hm2' with hmem0 | hss
        · have hss : s' ≠ s := by
            intro h
            subst h
            exact hnotmem hmem0
          rcases hroom0 with h0 | ⟨-, hu0, -⟩
          · obtain ⟨e', he', hw'⟩ := (hcons s' ws).2 ⟨room0, h0, hmem0⟩
            rw [mfind_mset_ne _ _ _ _ hss]
            exact ⟨e', he', hw'⟩
          · rw [hu0] at hmem0
            exact absurd hmem0 (List.not_mem_nil s')
        · subst hss
          refine ⟨_, mfind_mset_self _ _ _, rfl⟩
      · rw [mfind_mset_ne _ _ _ _ hWW] at hr2
        obtain ⟨e', he', hw'⟩ := (hcons s' ws').2 ⟨room2, hr2, hm2⟩
        have hss : s' ≠ s := by
          intro h
          subst h
          rw [hidle] at he'
          exact Option.noConfusion he'
        rw [mfind_mset_ne _ _ _ _ hss]
        exact ⟨e', he', hw'⟩

/-- `join-workspace` preserves the workspace invariants provided the socket is
not re-joining its current workspace (the well-formedness condition). -/
theorem joinWorkspace_inv (st : RM) (sock : SocketInfo) (ws : String)
    (access : AccessOutcome) (now : Nat) (hinv : WsInv st)
    (hok : ∀ e, mfind st.socketToWorkspace sock.id = some e → e.workspaceId ≠ ws) :
    WsInv (joinWorkspace st sock ws access now).1 := by
  rcases hu : sock.userId with _ | uid
  · simpa [joinWorkspace, hu] using hinv
  rcases hn : sock.userName with _ | uname
  · simpa [joinWorkspace, hu, hn] using hinv
  rcases access with role | _ | _
  case denied => simpa [joinWorkspace, hu, hn] using hinv
  case error => simpa [joinWorkspace, hu, hn] using hinv
  case granted =>
    rcases hprev : mfind st.socketToWorkspace sock.id with _ | cur
    · rcases hr0 : mfind st.workspaceRooms ws with _ | r0
      · simpa [joinWorkspace, hu, hn, hprev, hr0] using
          wsJoin_core st sock.id ws (jsRoleOrRead role) (createWorkspaceRoom ws now)
            hinv hprev (Or.inr ⟨hr0, rfl, rfl⟩)
      · simpa [joinWorkspace, hu, hn, hprev, hr0] using
          wsJoin_core st sock.id ws (jsRoleOrRead role) r0 hinv hprev (Or.inl hr0)
    · have hcur : cur.workspaceId ≠ ws := hok cur hprev
      obtain ⟨hclean, hidle⟩ :=
        cleanupWs_inv st sock.id cur.workspaceId hinv ⟨cur, hprev, rfl⟩
      rcases hr0 : mfind (cleanupUserFromWorkspaceRoom st sock.id
          cur.workspaceId).workspaceRooms ws with _ | r0
      · simpa [joinWorkspace, hu, hn, hprev, hcur, hr0] using
          wsJoin_core (cleanupUserFromWorkspaceRoom st sock.id cur.workspaceId)
            sock.id ws (jsRoleOrRead role) (createWorkspaceRoom ws now)
            hclean hidle (Or.inr ⟨hr0, rfl, rfl⟩)
      · simpa [joinWorkspace, hu, hn, hprev, hcur, hr0] using
          wsJoin_core (cleanupUserFromWorkspaceRoom st sock.id cur.workspaceId)
            sock.id ws (jsRoleOrRead role) r0 hclean hidle (Or.inl hr0)

/-- `join-workspace` never touches the workflow-side registry state. -/
theorem joinWorkspace_frame (st : RM) (sock : SocketInfo) (ws : String)
    (access : AccessOutcome) (now : Nat) :
    (joinWorkspace st sock ws access now).1.workflowRooms = st.workflowRooms ∧
    (joinWorkspace st sock ws access now).1.socketToWorkflow = st.socketToWorkflow ∧
    (joinWorkspace st sock ws access now).1.userSessions = st.userSessions := by
  rcases hu : sock.userId with _ | uid
  · simp [joinWorkspace, hu]
  rcases hn : sock.userName with _ | uname
  · simp [joinWorkspace, hu, hn]
  rcases access with role | _ | _
  case denied => simp [joinWorkspace, hu, hn]
  case error => simp [joinWorkspace, hu, hn]
  case granted =>
    rcases hprev : mfind st.socketToWorkspace sock.id with _ | cur
    · simp [joinWorkspace, hu, hn, hprev]
    · by_cases hcur : cur.workspaceId ≠ ws
      · obtain ⟨-, hf1, hf2, hf3⟩ := cleanupWs_components st sock.id cur.workspaceId
        simp [joinWorkspace, hu, hn, hprev, hcur, hf1, hf2, hf3]
      · simp [joinWorkspace, hu, hn, hprev, hcur]

theorem length_mset_of_none {α : Type} (m : List (String × α)) (k : String) (v : α)
    (h : mfind m k = none) : (mset m k v).length = m.length + 1 := by
  have h1 := mkeys_mset_of_none m k v h
  have h2 : (mkeys (mset m k v)).length = (mkeys m ++ [k]).length := by rw [h1]
  simpa [mkeys] using h2

/-- Core of the (spec-modelled) `join-workflow` success path. -/
theorem wfJoin_core (st1 : RM) (s wf : String) (p : UserPresence) (u : UserSession)
    (room0 : WorkflowRoom) (hinv : WfInv st1)
    (hidle : mfind st1.socketToWorkflow s = none)
    (hroom0 : mfind st1.workflowRooms wf = some room0 ∨
      (mfind st1.workflowRooms wf = none ∧ room0.users = [] ∧
       room0.activeConnections = 0 ∧ room0.workflowId = wf)) :
    WfInv { st1 with
      workflowRooms := mset st1.workflowRooms wf
        { room0 with users := mset room0.users s p,
                     activeConnections := room0.activeConnections + 1 },
      socketToWorkflow := mset st1.socketToWorkflow s wf,
      userSessions := mset st1.userSessions s u } := by
  obtain ⟨hnd, hconds, hcons⟩ := hinv
  have hfind0 : mfind room0.users s = none := by
    rcases hroom0 with h0 | ⟨-, hu0, -, -⟩
    · exact wfInv_no_entry_of_idx_none ⟨hnd, hconds, hcons⟩ hidle wf room0 h0
    · rw [hu0]
      rfl
  have hnodup0 : (mkeys room0.users).Nodup := by
    rcases hroom0 with h0 | ⟨-, hu0, -, -⟩
    · exact (hconds wf room0 h0).1
    · rw [hu0]
      exact List.nodup_nil
  have hcnt0 : room0.activeConnections = room0.users.length := by
    rcases hroom0 with h0 | ⟨-, hu0, hc0, -⟩
    · exact (hconds wf room0 h0).2.1
    · rw [hu0, hc0]
      rfl
  have hid0 : room0.workflowId = wf := by
    rcases hroom0 with h0 | ⟨-, -, -, hw0⟩
    · exact (hconds wf room0 h0).2.2.2
    · exact hw0
  refine ⟨nodup_mkeys_mset _ _ _ hnd, ?_, ?_⟩
  · intro k r hkr
    by_cases hk : k = wf
    · subst hk
      have hre := mfind_mset_self_eq hkr
      subst hre
      refine ⟨?_, ?_, ?_, hid0⟩
      · show (mkeys (mset room0.users s p)).Nodup
        exact nodup_mkeys_mset _ _ _ hnodup0
      · show room0.activeConnections + 1 = (mset room0.users s p).length
        rw [length_mset_of_none _ _ _ hfind0, hcnt0]
      · show mset room0.users s p ≠ []
        intro hnil
        have := length_mset_of_none room0.users s p hfind0
        rw [hnil] at this
        simp at this
    · rw [mfind_mset_ne _ _ _ _ hk] at hkr
      exact hconds k r hkr
  · intro s' w'
    constructor
    · intro he'
      by_cases hss : s' = s
      · subst hss
        rw [mfind_mset_self] at he'
        injection he' with hee
        rw [← hee]
        refine ⟨_, mfind_mset_self _ _ _, ?_⟩
        show (mfind (mset room0.users s' p) s').isSome
        rw [mfind_mset_self]
        rfl
      · rw [mfind_mset_ne _ _ _ _ hss] at he'
        obtain ⟨room2, hr2, hm2⟩ := (hcons s' w').1 he'
        by_cases hWW : w' = wf
        · rw [hWW] at hr2 ⊢
          rw [hroom0.resolve_right (fun hcon => by
              rw [hcon.1] at hr2
              exact Option.noConfusion hr2)] at hr2
          injection hr2 with hre
          refine ⟨_, mfind_mset_self _ _ _, ?_⟩
          show (mfind (mset room0.users s p) s').isSome
          rw [mfind_mset_ne _ _ _ _ hss, hre]
          exact hm2
        · rw [mfind_mset_ne _ _ _ _ hWW]
          exact ⟨room2, hr2, hm2⟩
    · rintro ⟨room2, hr2, hm2⟩
      by_cases hWW : w' = wf
      · rw [hWW] at hr2 ⊢
        have hre := mfind_mset_self_eq hr2
        subst hre
        have hm2' : (mfind (mset room0.users s p) s').isSome := hm2
        by_cases hss : s' = s
        · subst hss
          rw [mfind_mset_self]
        · rw [mfind_mset_ne _ _ _ _ hss] at hm2'
          rcases hroom0 with h0 | ⟨-, hu0, -, -⟩
          · have he' := (hcons s' wf).2 ⟨room0, h0, hm2'⟩
            rw [mfind_mset_ne _ _ _ _ hss]
            exact he'
          · rw [hu0] at hm2'
            simp [mfind] at hm2'
      · rw [mfind_mset_ne _ _ _ _ hWW] at hr2
        have he' := (hcons s' w').2 ⟨room2, hr2, hm2⟩
        have hss : s' ≠ s := by
          intro h
          subst h
          rw [hidle] at he'
          exact Option.noConfusion he'
        rw [mfind_mset_ne _ _ _ _ hss]
        exact he'

/-- The (spec-modelled) `join-workflow` preserves the workflow invariants. -/
theorem joinWorkflow_inv (store : DurableStore) (st : RM) (sock : SocketInfo)
    (wf : String) (now : Nat) (hinv : WfInv st) :
    WfInv (joinWorkflow store st sock wf now).1 := by
  rcases hu : sock.userId with _ | uid
  · simpa [joinWorkflow, hu] using hinv
  rcases hn : sock.userName with _ | uname
  · simpa [joinWorkflow, hu, hn] using hinv
  rcases hacc : resolveWorkflowAccess store uid wf with _ | role
  · simpa [joinWorkflow, hu, hn, hacc] using hinv
  rcases hprev : mfind st.socketToWorkflow sock.id with _ | prev
  · rcases hr0 : mfind st.workflowRooms wf with _ | r0
    · simpa [joinWorkflow, hu, hn, hacc, hprev, hr0] using
        wfJoin_core st sock.id wf
          { userId := uid, workflowId := wf, userName := uname, socketId := sock.id,
            joinedAt := now, lastActivity := now, role := some role, cursor := none,
            selection := none, avatarUrl := none }
          { userId := uid, userName := uname, avatarUrl := none }
          (createWorkflowRoom wf now) hinv hprev (Or.inr ⟨hr0, rfl, rfl, rfl⟩)
    · simpa [joinWorkflow, hu, hn, hacc, hprev, hr0] using
        wfJoin_core st sock.id wf
          { userId := uid, workflowId := wf, userName := uname, socketId := sock.id,
            joinedAt := now, lastActivity := now, role := some role, cursor := none,
            selection := none, avatarUrl := none }
          { userId := uid, userName := uname, avatarUrl := none }
          r0 hinv hprev (Or.inl hr0)
  · obtain ⟨hclean, hidle⟩ := cleanupWf_inv st sock.id prev hinv hprev
    rcases hr0 : mfind (cleanupUserFromRoom st sock.id prev).workflowRooms wf
        with _ | r0
    · simpa [joinWorkflow, hu, hn, hacc, hprev, hr0] using
        wfJoin_core (cleanupUserFromRoom st sock.id prev) sock.id wf
          { userId := uid, workflowId := wf, userName := uname, socketId := sock.id,
            joinedAt := now, lastActivity := now, role := some role, cursor := none,
            selection := none, avatarUrl := none }
          { userId := uid, userName := uname, avatarUrl := none }
          (createWorkflowRoom wf now) hclean hidle (Or.inr ⟨hr0, rfl, rfl, rfl⟩)
    · simpa [joinWorkflow, hu, hn, hacc, hprev, hr0] using
        wfJoin_core (cleanupUserFromRoom st sock.id prev) sock.id wf
          { userId := uid, workflowId := wf, userName := uname, socketId := sock.id,
            joinedAt := now, lastActivity := now, role := some role, cursor := none,
            selection := none, avatarUrl := none }
          { userId := uid, userName := uname, avatarUrl := none }
          r0 hclean hidle (Or.inl hr0)

/-- The (spec-modelled) `join-workflow` never touches the workspace-side state. -/
theorem joinWorkflow_frame (store : DurableStore) (st : RM) (sock : SocketInfo)
    (wf : String) (now : Nat) :
    (joinWorkflow store st sock wf now).1.workspaceRooms = st.workspaceRooms ∧
    (joinWorkflow store st sock wf now).1.socketToWorkspace = st.socketToWorkspace := by
  rcases hu : sock.userId with _ | uid
  · simp [joinWorkflow, hu]
  rcases hn : sock.userName with _ | uname
  · simp [joinWorkflow, hu, hn]
  rcases hacc : resolveWorkflowAccess store uid wf with _ | role
  · simp [joinWorkflow, hu, hn, hacc]
  rcases hprev : mfind st.socketToWorkflow sock.id with _ | prev
  · simp [joinWorkflow, hu, hn, hacc, hprev]
  · obtain ⟨-, -, hf1, hf2⟩ := cleanupWf_components st sock.id prev
    simp [joinWorkflow, hu, hn, hacc, hprev, hf1, hf2]

/-- The (spec-modelled) `leave-workflow` preserves the workflow invariants. -/
theorem leaveWorkflow_inv (st : RM) (sock : SocketInfo) (hinv : WfInv st) :
    WfInv (leaveWorkflow st sock).1 := by
  rcases hprev : mfind st.socketToWorkflow sock.id with _ | wf
  · simpa [leaveWorkflow, hprev] using hinv
  · simpa [leaveWorkflow, hprev] using
      (cleanupWf_inv st sock.id wf hinv hprev).1

/-- The (spec-modelled) `leave-workflow` never touches the workspace-side state. -/
theorem leaveWorkflow_frame (st : RM) (sock : SocketInfo) :
    (leaveWorkflow st sock).1.workspaceRooms = st.workspaceRooms ∧
    (leaveWorkflow st sock).1.socketToWorkspace = st.socketToWorkspace := by
  rcases hprev : mfind st.socketToWorkflow sock.id with _ | wf
  · simp [leaveWorkflow, hprev]
  · obtain ⟨-, -, hf1, hf2⟩ := cleanupWf_components st sock.id wf
    simp [leaveWorkflow, hprev, hf1, hf2]

theorem mfind_isSome_of_mem_mkeys {α : Type} {m : List (String × α)} {k : String}
    (h : k ∈ mkeys m) : (mfind m k).isSome := by
  induction m with
  | nil => simp [mkeys] at h
  | cons p rest ih =>
      by_cases hk : p.1 = k
      · simp [mfind, hk]
      · rw [mkeys_cons] at h
        rcases List.mem_cons.1 h with he | hm
        · exact absurd he.symm hk
        · rw [show mfind (p :: rest) k = mfind rest k from by simp [mfind, hk]]
          exact ih hm

theorem mem_mkeys_of_mfind_isSome {α : Type} {m : List (String × α)} {k : String}
    (h : (mfind m k).isSome) : k ∈ mkeys m := by
  obtain ⟨v, hv⟩ := Option.isSome_iff_exists.1 h
  exact List.mem_map.2 ⟨(k, v), mem_of_mfind_eq_some hv, rfl⟩

/-- The state component of the `handleWorkflowDeletion` cleanup loop is the
plain fold of `cleanupUserFromRoom` (the effects ride along). -/
theorem wfDeletion_fold_state (connected : List String) (wf : String) :
    ∀ (l : List String) (st : RM) (es : List Effect),
      (l.foldl (wfDeletionCleanupStep connected wf) (st, es)).1 =
        l.foldl (fun a s => cleanupUserFromRoom a s wf) st := by
  intro l
  induction l with
  | nil =>
      intro st es
      rfl
  | cons x rest ih =>
      intro st es
      simp only [List.foldl_cons, wfDeletionCleanupStep]
      exact ih _ _

theorem foldCleanup_ws_frame (wf : String) (l : List String) :
    ∀ st : RM,
      (l.foldl (fun a s => cleanupUserFromRoom a s wf) st).workspaceRooms =
        st.workspaceRooms ∧
      (l.foldl (fun a s => cleanupUserFromRoom a s wf) st).socketToWorkspace =
        st.socketToWorkspace := by
  induction l with
  | nil =>
      intro st
      exact ⟨rfl, rfl⟩
  | cons x rest ih =>
      intro st
      obtain ⟨-, -, h1, h2⟩ := cleanupWf_components st x wf
      obtain ⟨ih1, ih2⟩ := ih (cleanupUserFromRoom st x wf)
      simp only [List.foldl_cons]
      exact ⟨ih1.trans h1, ih2.trans h2⟩

/-- Folding the registry cleanup over a duplicate-free list of sockets that
all have reverse index `wf` preserves the workflow invariants; afterwards no
socket of the list is indexed, and sockets outside the list kept their index. -/
theorem foldCleanup_inv (wf : String) :
    ∀ (l : List String) (st : RM), WfInv st → l.Nodup →
      (∀ s ∈ l, mfind st.socketToWorkflow s = some wf) →
      WfInv (l.foldl (fun a s => cleanupUserFromRoom a s wf) st) ∧
      (∀ s, mfind (l.foldl (fun a s => cleanupUserFromRoom a s wf)
          st).socketToWorkflow s = some wf →
        mfind st.socketToWorkflow s = some wf ∧ s ∉ l) := by
  intro l
  induction l with
  | nil =>
      intro st hinv hnd hall
      exact ⟨hinv, fun s h => ⟨h, by simp⟩⟩
  | cons x rest ih =>
      intro st hinv hnd hall
      have hx : mfind st.socketToWorkflow x = some wf := hall x (by simp)
      obtain ⟨hinv1, hidlex⟩ := cleanupWf_inv st x wf hinv hx
      obtain ⟨hc1, -, -, -⟩ := cleanupWf_components st x wf
      have hrest : ∀ s ∈ rest,
          mfind (cleanupUserFromRoom st x wf).socketToWorkflow s = some wf := by
        intro s hs
        have hne : s ≠ x := by
          intro h
          subst h
          exact (List.nodup_cons.1 hnd).1 hs
        rw [hc1, mfind_mdel_ne _ _ _ hne]
        exact hall s (by simp [hs])
      obtain ⟨hinv2, hmap⟩ := ih (cleanupUserFromRoom st x wf) hinv1
        (List.nodup_cons.1 hnd).2 hrest
      constructor
      · simpa using hinv2
      · intro s hsfind
        simp only [List.foldl_cons] at hsfind
        obtain ⟨hs1, hs2⟩ := hmap s hsfind
        have hne : s ≠ x := by
          intro h
          subst h
          rw [hidlex] at hs1
          exact Option.noConfusion hs1
        rw [hc1, mfind_mdel_ne _ _ _ hne] at hs1
        exact ⟨hs1, by simp [hne, hs2]⟩

/-- Deleting a workflow-room key to which no reverse-index entry points keeps
the workflow invariants. -/
theorem wfInv_del_unreferenced (st : RM) (wf : String) (hinv : WfInv st)
    (hnone : ∀ s, mfind st.socketToWorkflow s ≠ some wf) :
    WfInv { st with workflowRooms := mdel st.workflowRooms wf } := by
  obtain ⟨hnd, hconds, hcons⟩ := hinv
  refine ⟨nodup_mkeys_mdel _ _ hnd, ?_, ?_⟩
  · intro k r hkr
    by_cases hk : k = wf
    · rw [hk] at hkr
      rw [show mfind ({ st with workflowRooms := mdel st.workflowRooms wf } :
          RM).workflowRooms wf = mfind (mdel st.workflowRooms wf) wf from rfl,
        mfind_mdel_self] at hkr
      exact Option.noConfusion hkr
    · rw [show mfind ({ st with workflowRooms := mdel st.workflowRooms wf } :
          RM).workflowRooms k = mfind (mdel st.workflowRooms wf) k from rfl,
        mfind_mdel_ne _ _ _ hk] at hkr
      exact hconds k r hkr
  · intro s w
    by_cases hw : w = wf
    · subst hw
      constructor
      · intro he
        exact absurd he (hnone s)
      · rintro ⟨room2, hr2, -⟩
        rw [show mfind ({ st with workflowRooms := mdel st.workflowRooms w } :
            RM).workflowRooms w = mfind (mdel st.workflowRooms w) w from rfl,
          mfind_mdel_self] at hr2
        exact Option.noConfusion hr2
    · have hiff : ∀ room : WorkflowRoom,
          mfind (mdel st.workflowRooms wf) w = some room ↔
          mfind st.workflowRooms w = some room := by
        intro room
        rw [mfind_mdel_ne _ _ _ hw]
      constructor
      · intro he
        obtain ⟨room2, hr2, hm2⟩ := (hcons s w).1 he
        exact ⟨room2, (hiff room2).2 hr2, hm2⟩
      · rintro ⟨room2, hr2, hm2⟩
        exact (hcons s w).2 ⟨room2, (hiff room2).1 hr2, hm2⟩

/-- `handleWorkflowDeletion` preserves the workflow invariants. -/
theorem handleWorkflowDeletion_inv (st : RM) (connected : List String) (now : Nat)
    (wf : String) (hinv : WfInv st) :
    WfInv (handleWorkflowDeletion st connected now wf).1 := by
  rcases hr : mfind st.workflowRooms wf with _ | room
  · simpa [handleWorkflowDeletion, hr] using hinv
  · have hall : ∀ s ∈ mkeys room.users, mfind st.socketToWorkflow s = some wf := by
      intro s hs
      exact (hinv.2.2 s wf).2 ⟨room, hr, mfind_isSome_of_mem_mkeys hs⟩
    have hndu : (mkeys room.users).Nodup := (hinv.2.1 wf room hr).1
    obtain ⟨hinv2, hmap⟩ := foldCleanup_inv wf (mkeys room.users) st hinv hndu hall
    have hstate : (handleWorkflowDeletion st connected now wf).1 =
        { (mkeys room.users).foldl (fun a s => cleanupUserFromRoom a s wf) st with
          workflowRooms := mdel ((mkeys room.users).foldl
            (fun a s => cleanupUserFromRoom a s wf) st).workflowRooms wf } := by
      simp only [handleWorkflowDeletion, hr]
      rw [wfDeletion_fold_state]
    rw [hstate]
    apply wfInv_del_unreferenced _ _ hinv2
    intro s hsome
    obtain ⟨hs1, hs2⟩ := hmap s hsome
    apply hs2
    obtain ⟨room2, hr2, hm2⟩ := (hinv.2.2 s wf).1 hs1
    rw [hr] at hr2
    injection hr2 with hre
    rw [← hre] at hm2
    exact mem_mkeys_of_mfind_isSome hm2

/-- `handleWorkflowDeletion` never touches the workspace-side state. -/
theorem handleWorkflowDeletion_frame (st : RM) (connected : List String)
    (now : Nat) (wf : String) :
    (handleWorkflowDeletion st connected now wf).1.workspaceRooms =
      st.workspaceRooms ∧
    (handleWorkflowDeletion st connected now wf).1.socketToWorkspace =
      st.socketToWorkspace := by
  rcases hr : mfind st.workflowRooms wf with _ | room
  · simp [handleWorkflowDeletion, hr]
  · have hstate : (handleWorkflowDeletion st connected now wf).1 =
        { (mkeys room.users).foldl (fun a s => cleanupUserFromRoom a s wf) st with
          workflowRooms := mdel ((mkeys room.users).foldl
            (fun a s => cleanupUserFromRoom a s wf) st).workflowRooms wf } := by
      simp only [handleWorkflowDeletion, hr]
      rw [wfDeletion_fold_state]
    obtain ⟨h1, h2⟩ := foldCleanup_ws_frame wf (mkeys room.users) st
    rw [hstate]
    exact ⟨h1, h2⟩

/-- Generic preservation of a state predicate through an effect-accumulating
fold. -/
theorem foldl_preserves {α : Type} (f : RM × List Effect → α → RM × List Effect)
    (P : RM → Prop) (hstep : ∀ acc x, P acc.1 → P (f acc x).1) :
    ∀ (l : List α) (acc : RM × List Effect), P acc.1 → P (l.foldl f acc).1 := by
  intro l
  induction l with
  | nil =>
      intro acc h
      exact h
  | cons x rest ih =>
      intro acc h
      exact ih _ (hstep acc x h)

/-- Replacing one presence value of an existing key preserves the workflow
invariants (the key set of the room is unchanged). -/
theorem wfInv_roleUpdate (st : RM) (w s : String) (r : WorkflowRoom)
    (p' : UserPresence) (hinv : WfInv st) (hr : mfind st.workflowRooms w = some r)
    (hs : (mfind r.users s).isSome) :
    WfInv { st with workflowRooms :=
      (mset st.workflowRooms w { r with users := mset r.users s p' }) } := by
  obtain ⟨hnd, hconds, hcons⟩ := hinv
  obtain ⟨hru, hrc, hrn, hri⟩ := hconds w r hr
  have hkeys : mkeys (mset r.users s p') = mkeys r.users :=
    mkeys_mset_of_isSome _ _ _ hs
  have hlen : (mset r.users s p').length = r.users.length :=
    length_mset_of_isSome _ _ _ hs
  refine ⟨nodup_mkeys_mset _ _ _ hnd, ?_, ?_⟩
  · intro k r2 hkr
    by_cases hk : k = w
    · rw [hk] at hkr
      have hre := mfind_mset_self_eq hkr
      subst hre
      refine ⟨?_, ?_, ?_, ?_⟩
      · show (mkeys (mset r.users s p')).Nodup
        rw [hkeys]
        exact hru
      · show r.activeConnections = (mset r.users s p').length
        rw [hlen]
        exact hrc
      · show mset r.users s p' ≠ []
        intro hnil
        have hp : 0 < r.users.length :=
          List.length_pos.2 hrn
        rw [← hlen, hnil] at hp
        simp at hp
      · show r.workflowId = k
        rw [hk]
        exact hri
    · rw [mfind_mset_ne _ _ _ _ hk] at hkr
      exact hconds k r2 hkr
  · intro s' w'
    have hIsm : ∀ s'', (mfind (mset r.users s p') s'').isSome ↔
        (mfind r.users s'').isSome := by
      intro s''
      by_cases hss : s'' = s
      · rw [hss, mfind_mset_self]
        simp [hs]
      · rw [mfind_mset_ne _ _ _ _ hss]
    constructor
    · intro he
      obtain ⟨room2, hr2, hm2⟩ := (hcons s' w').1 he
      by_cases hW : w' = w
      · rw [hW] at hr2 ⊢
        rw [hr] at hr2
        injection hr2 with hre
        refine ⟨_, mfind_mset_self _ _ _, ?_⟩
        show (mfind (mset r.users s p') s').isSome
        rw [hIsm s']
        rw [← hre] at hm2
        exact hm2
      · rw [mfind_mset_ne _ _ _ _ hW]
        exact ⟨room2, hr2, hm2⟩
    · rintro ⟨room2, hr2, hm2⟩
      by_cases hW : w' = w
      · rw [hW] at hr2 ⊢
        have hre := mfind_mset_self_eq hr2
        subst hre
        have hm2' : (mfind (mset r.users s p') s').isSome := hm2
        rw [hIsm s'] at hm2'
        exact (hcons s' w).2 ⟨r, hr, hm2'⟩
      · rw [mfind_mset_ne _ _ _ _ hW] at hr2
        exact (hcons s' w').2 ⟨room2, hr2, hm2⟩

/-- The state component of the revocation loop of `handlePermissionChange` is
the plain cleanup fold over the snapshot's socket ids. -/
theorem permFold_removed_state (connected : List String) (now : Nat)
    (wsId roomWf : String) (newRole : Option String) :
    ∀ (l : List (String × UserPresence)) (acc : RM × List Effect),
      (l.foldl (permChangeSocket connected now wsId roomWf newRole true) acc).1 =
        (l.map Prod.fst).foldl (fun a s => cleanupUserFromRoom a s roomWf) acc.1 := by
  intro l
  induction l with
  | nil =>
      intro acc
      rfl
  | cons x rest ih =>
      intro acc
      simp only [List.foldl_cons, List.map_cons]
      rw [ih]
      rfl

/-- The role-update loop of `handlePermissionChange` (`isRemoved = false`)
preserves the workflow invariants, keeps the key set of the processed room, and
does not touch the reverse index. -/
theorem permFold_false_inv (connected : List String) (now : Nat)
    (wsId roomWf : String) (newRole : Option String) :
    ∀ (l : List (String × UserPresence)) (acc : RM × List Effect) (K : List String),
      WfInv acc.1 →
      (∃ r, mfind acc.1.workflowRooms roomWf = some r ∧ mkeys r.users = K) →
      (∀ sp ∈ l, sp.1 ∈ K) →
      WfInv (l.foldl (permChangeSocket connected now wsId roomWf newRole false) acc).1 := by
  intro l
  induction l with
  | nil =>
      intro acc K hinv _ _
      exact hinv
  | cons x rest ih =>
      intro acc K hinv hK hall
      obtain ⟨r, hr, hKeq⟩ := hK
      have hx : (mfind r.users x.1).isSome := by
        apply mfind_isSome_of_mem_mkeys
        rw [hKeq]
        exact hall x (by simp)
      have hstep : (permChangeSocket connected now wsId roomWf newRole false acc x).1 =
          { acc.1 with workflowRooms :=
            (mset acc.1.workflowRooms roomWf
              { r with users := mset r.users x.1 { x.2 with role := newRole } }) } := by
        simp [permChangeSocket, hr]
      simp only [List.foldl_cons]
      apply ih _ K
      · rw [hstep]
        exact wfInv_roleUpdate acc.1 roomWf x.1 r _ hinv hr hx
      · rw [hstep]
        refine ⟨{ r with users := mset r.users x.1 { x.2 with role := newRole } },
          ?_, ?_⟩
        · show mfind (mset acc.1.workflowRooms roomWf
            { r with users := mset r.users x.1 { x.2 with role := newRole } }) roomWf =
            some { r with users := mset r.users x.1 { x.2 with role := newRole } }
          exact mfind_mset_self _ _ _
        · show mkeys (mset r.users x.1 { x.2 with role := newRole }) = K
          rw [mkeys_mset_of_isSome _ _ _ hx, hKeq]
      · intro sp hsp
        exact hall sp (by simp [hsp])

/-- `permChangeRoom` preserves the workflow invariants. -/
theorem permChangeRoom_inv (connected : List String) (now : Nat)
    (u wsId : String) (newRole : Option String) (isRemoved : Bool)
    (acc : RM × List Effect) (roomId : String) (hinv : WfInv acc.1) :
    WfInv (permChangeRoom connected now u wsId newRole isRemoved acc roomId).1 := by
  rcases hroom : mfind acc.1.workflowRooms roomId with _ | room
  · simpa [permChangeRoom, hroom] using hinv
  · have hid : room.workflowId = roomId := (hinv.2.1 roomId room hroom).2.2.2
    have hndu : (mkeys room.users).Nodup := (hinv.2.1 roomId room hroom).1
    have hstate : (permChangeRoom connected now u wsId newRole isRemoved acc roomId).1 =
        ((room.users.filter (fun q => q.2.userId == u)).foldl
          (permChangeSocket connected now wsId room.workflowId newRole isRemoved) acc).1 := by
      simp only [permChangeRoom, hroom]
    rw [hstate]
    cases isRemoved
    · -- role update
      apply permFold_false_inv connected now wsId room.workflowId newRole _ acc
        (mkeys room.users) hinv
      · rw [hid]
        exact ⟨room, hroom, rfl⟩
      · intro sp hsp
        exact List.mem_map.2 ⟨sp, List.mem_of_mem_filter hsp, rfl⟩
    · -- revocation: cleanup fold over the snapshot's socket ids
      rw [permFold_removed_state]
      have hsub : ((room.users.filter (fun q => q.2.userId == u)).map Prod.fst).Nodup := by
        apply List.Nodup.sublist _ hndu
        exact List.Sublist.map _ (List.filter_sublist _)
      have hall : ∀ s ∈ (room.users.filter (fun q => q.2.userId == u)).map Prod.fst,
          mfind acc.1.socketToWorkflow s = some room.workflowId := by
        intro s hs
        rcases List.mem_map.1 hs with ⟨sp, hsp, hfst⟩
        have hmem : sp ∈ room.users := List.mem_of_mem_filter hsp
        have : (mfind room.users s).isSome := by
          apply mfind_isSome_of_mem_mkeys
          exact List.mem_map.2 ⟨sp, hmem, hfst⟩
        rw [hid]
        exact (hinv.2.2 s roomId).2 ⟨room, hroom, this⟩
      exact (foldCleanup_inv room.workflowId _ acc.1 hinv hsub hall).1

/-- `handlePermissionChange` preserves the workflow invariants. -/
theorem handlePermissionChange_inv (st : RM) (connected : List String) (now : Nat)
    (u wsId : String) (newRole : Option String) (isRemoved : Bool) (hinv : WfInv st) :
    WfInv (handlePermissionChange st connected now u wsId newRole isRemoved).1 := by
  by_cases hemp : (mkeys (st.workflowRooms.filter
      (fun p => p.2.users.any (fun q => q.2.userId == u)))).isEmpty
  · rw [show handlePermissionChange st connected now u wsId newRole isRemoved =
        (st, []) from by simp [handlePermissionChange, hemp]]
    exact hinv
  · rw [show handlePermissionChange st connected now u wsId newRole isRemoved =
        (mkeys (st.workflowRooms.filter
          (fun p => p.2.users.any (fun q => q.2.userId == u)))).foldl
          (permChangeRoom connected now u wsId newRole isRemoved) (st, []) from by
        simp [handlePermissionChange, hemp]]
    apply foldl_preserves _ WfInv
      (fun acc x h => permChangeRoom_inv connected now u wsId newRole isRemoved acc x h)
    exact hinv

/-- `permChangeSocket` never touches the workspace-side state. -/
theorem permChangeSocket_ws_frame (connected : List String) (now : Nat)
    (wsId roomWf : String) (newRole : Option String) (isRemoved : Bool)
    (acc : RM × List Effect) (x : String × UserPresence) :
    (permChangeSocket connected now wsId roomWf newRole isRemoved acc x).1.workspaceRooms =
      acc.1.workspaceRooms ∧
    (permChangeSocket connected now wsId roomWf newRole isRemoved acc x).1.socketToWorkspace =
      acc.1.socketToWorkspace := by
  cases isRemoved
  · rcases hr : mfind acc.1.workflowRooms roomWf with _ | r <;>
      simp [permChangeSocket, hr]
  · obtain ⟨-, -, h1, h2⟩ := cleanupWf_components acc.1 x.1 roomWf
    simp [permChangeSocket, h1, h2]

/-- `permChangeRoom` never touches the workspace-side state. -/
theorem permChangeRoom_ws_frame (connected : List String) (now : Nat)
    (u wsId : String) (newRole : Option String) (isRemoved : Bool)
    (acc : RM × List Effect) (roomId : String) :
    (permChangeRoom connected now u wsId newRole isRemoved acc roomId).1.workspaceRooms =
      acc.1.workspaceRooms ∧
    (permChangeRoom connected now u wsId newRole isRemoved acc roomId).1.socketToWorkspace =
      acc.1.socketToWorkspace := by
  rcases hroom : mfind acc.1.workflowRooms roomId with _ | room
  · simp [permChangeRoom, hroom]
  · have hstate : (permChangeRoom connected now u wsId newRole isRemoved acc roomId).1 =
        ((room.users.filter (fun q => q.2.userId == u)).foldl
          (permChangeSocket connected now wsId room.workflowId newRole isRemoved) acc).1 := by
      simp only [permChangeRoom, hroom]
    rw [hstate]
    exact foldl_preserves _
      (fun s => s.workspaceRooms = acc.1.workspaceRooms ∧
        s.socketToWorkspace = acc.1.socketToWorkspace)
      (fun a x h => by
        obtain ⟨f1, f2⟩ := permChangeSocket_ws_frame connected now wsId
          room.workflowId newRole isRemoved a x
        exact ⟨f1.trans h.1, f2.trans h.2⟩)
      _ acc ⟨rfl, rfl⟩

/-- `handlePermissionChange` never touches the workspace-side state. -/
theorem handlePermissionChange_ws_frame (st : RM) (connected : List String)
    (now : Nat) (u wsId : String) (newRole : Option String) (isRemoved : Bool) :
    (handlePermissionChange st connected now u wsId newRole isRemoved).1.workspaceRooms =
      st.workspaceRooms ∧
    (handlePermissionChange st connected now u wsId newRole isRemoved).1.socketToWorkspace =
      st.socketToWorkspace := by
  by_cases hemp : (mkeys (st.workflowRooms.filter
      (fun p => p.2.users.any (fun q => q.2.userId == u)))).isEmpty
  · rw [show handlePermissionChange st connected now u wsId newRole isRemoved =
        (st, []) from by simp [handlePermissionChange, hemp]]
    exact ⟨rfl, rfl⟩
  · rw [show handlePermissionChange st connected now u wsId newRole isRemoved =
        (mkeys (st.workflowRooms.filter
          (fun p => p.2.users.any (fun q => q.2.userId == u)))).foldl
          (permChangeRoom connected now u wsId newRole isRemoved) (st, []) from by
        simp [handlePermissionChange, hemp]]
    exact foldl_preserves _
      (fun s => s.workspaceRooms = st.workspaceRooms ∧
        s.socketToWorkspace = st.socketToWorkspace)
      (fun a x h => by
        obtain ⟨f1, f2⟩ := permChangeRoom_ws_frame connected now u wsId
          newRole isRemoved a x
        exact ⟨f1.trans h.1, f2.trans h.2⟩)
      _ (st, []) ⟨rfl, rfl⟩

/-- Updating only `lastModified` of a registered workflow room preserves the
workflow invariants. -/
theorem wfInv_touch (st : RM) (w : String) (r : WorkflowRoom) (ts : Nat)
    (hinv : WfInv st) (hr : mfind st.workflowRooms w = some r) :
    WfInv { st with workflowRooms :=
      (mset st.workflowRooms w { r with lastModified := ts }) } := by
  obtain ⟨hnd, hconds, hcons⟩ := hinv
  obtain ⟨hru, hrc, hrn, hri⟩ := hconds w r hr
  refine ⟨nodup_mkeys_mset _ _ _ hnd, ?_, ?_⟩
  · intro k r2 hkr
    by_cases hk : k = w
    · rw [hk] at hkr
      have hre := mfind_mset_self_eq hkr
      subst hre
      exact ⟨hru, hrc, hrn, by rw [hk]; exact hri⟩
    · rw [mfind_mset_ne _ _ _ _ hk] at hkr
      exact hconds k r2 hkr
  · intro s' w'
    constructor
    · intro he
      obtain ⟨room2, hr2, hm2⟩ := (hcons s' w').1 he
      by_cases hW : w' = w
      · rw [hW] at hr2 ⊢
        rw [hr] at hr2
        injection hr2 with hre
        refine ⟨_, mfind_mset_self _ _ _, ?_⟩
        show (mfind r.users s').isSome
        rw [← hre] at hm2
        exact hm2
      · rw [mfind_mset_ne _ _ _ _ hW]
        exact ⟨room2, hr2, hm2⟩
    · rintro ⟨room2, hr2, hm2⟩
      by_cases hW : w' = w
      · rw [hW] at hr2 ⊢
        have hre := mfind_mset_self_eq hr2
        subst hre
        exact (hcons s' w).2 ⟨r, hr, hm2⟩
      · rw [mfind_mset_ne _ _ _ _ hW] at hr2
        exact (hcons s' w').2 ⟨room2, hr2, hm2⟩

/-- Updating only `lastModified` of a registered workspace room preserves the
workspace invariants. -/
theorem wsInv_touch (st : RM) (ws : String) (r : WorkspaceRoom) (ts : Nat)
    (hinv : WsInv st) (hr : mfind st.workspaceRooms ws = some r) :
    WsInv { st with workspaceRooms :=
      (mset st.workspaceRooms ws { r with lastModified := ts }) } := by
  obtain ⟨hnd, hconds, hcons⟩ := hinv
  obtain ⟨hru, hrc, hrn⟩ := hconds ws r hr
  refine ⟨nodup_mkeys_mset _ _ _ hnd, ?_, ?_⟩
  · intro k r2 hkr
    by_cases hk : k = ws
    · rw [hk] at hkr
      have hre := mfind_mset_self_eq hkr
      subst hre
      exact ⟨hru, hrc, hrn⟩
    · rw [mfind_mset_ne _ _ _ _ hk] at hkr
      exact hconds k r2 hkr
  · intro s' ws'
    constructor
    · rintro ⟨e', he', hw'⟩
      obtain ⟨room2, hr2, hm2⟩ := (hcons s' ws').1 ⟨e', he', hw'⟩
      by_cases hW : ws' = ws
      · rw [hW] at hr2 ⊢
        rw [hr] at hr2
        injection hr2 with hre
        refine ⟨_, mfind_mset_self _ _ _, ?_⟩
        show s' ∈ r.users
        rw [← hre] at hm2
        exact hm2
      · rw [mfind_mset_ne _ _ _ _ hW]
        exact ⟨room2, hr2, hm2⟩
    · rintro ⟨room2, hr2, hm2⟩
      by_cases hW : ws' = ws
      · rw [hW] at hr2 ⊢
        have hre := mfind_mset_self_eq hr2
        subst hre
        exact (hcons s' ws).2 ⟨r, hr, hm2⟩
      · rw [mfind_mset_ne _ _ _ _ hW] at hr2
        exact (hcons s' ws').2 ⟨room2, hr2, hm2⟩

theorem handleWorkflowUpdate_inv (st : RM) (now : Nat) (wf : String)
    (hinv : WfInv st) : WfInv (handleWorkflowUpdate st now wf).1 := by
  rcases hr : mfind st.workflowRooms wf with _ | room
  · simpa [handleWorkflowUpdate, hr] using hinv
  · simpa [handleWorkflowUpdate, hr] using wfInv_touch st wf room now hinv hr

theorem handleWorkflowRevert_inv (st : RM) (wf : String) (ts : Nat)
    (hinv : WfInv st) : WfInv (handleWorkflowRevert st wf ts).1 := by
  rcases hr : mfind st.workflowRooms wf with _ | room
  · simpa [handleWorkflowRevert, hr] using hinv
  · simpa [handleWorkflowRevert, hr] using wfInv_touch st wf room ts hinv hr

theorem handleCopilotWorkflowEdit_inv (st : RM) (now : Nat) (wf : String)
    (d : Option String) (hinv : WfInv st) :
    WfInv (handleCopilotWorkflowEdit st now wf d).1 := by
  rcases hr : mfind st.workflowRooms wf with _ | room
  · simpa [handleCopilotWorkflowEdit, hr] using hinv
  · simpa [handleCopilotWorkflowEdit, hr] using wfInv_touch st wf room now hinv hr

theorem handleWorkspaceResourceChange_inv (st : RM) (now : Nat) (ws : String)
    (rt : ResourceType) (op : ResourceOp) (d : JVal) (hinv : WsInv st) :
    WsInv (handleWorkspaceResourceChange st now ws rt op d).1 := by
  rcases hr : mfind st.workspaceRooms ws with _ | room
  · simpa [handleWorkspaceResourceChange, hr] using hinv
  · simpa [handleWorkspaceResourceChange, hr] using wsInv_touch st ws room now hinv hr

theorem handleWorkflowUpdate_frame (st : RM) (now : Nat) (wf : String) :
    (handleWorkflowUpdate st now wf).1.workspaceRooms = st.workspaceRooms ∧
    (handleWorkflowUpdate st now wf).1.socketToWorkspace = st.socketToWorkspace := by
  rcases hr : mfind st.workflowRooms wf with _ | room <;>
    simp [handleWorkflowUpdate, hr]

theorem handleWorkflowRevert_frame (st : RM) (wf : String) (ts : Nat) :
    (handleWorkflowRevert st wf ts).1.workspaceRooms = st.workspaceRooms ∧
    (handleWorkflowRevert st wf ts).1.socketToWorkspace = st.socketToWorkspace := by
  rcases hr : mfind st.workflowRooms wf with _ | room <;>
    simp [handleWorkflowRevert, hr]

theorem handleCopilotWorkflowEdit_frame (st : RM) (now : Nat) (wf : String)
    (d : Option String) :
    (handleCopilotWorkflowEdit st now wf d).1.workspaceRooms = st.workspaceRooms ∧
    (handleCopilotWorkflowEdit st now wf d).1.socketToWorkspace = st.socketToWorkspace := by
  rcases hr : mfind st.workflowRooms wf with _ | room <;>
    simp [handleCopilotWorkflowEdit, hr]

theorem handleWorkspaceResourceChange_frame (st : RM) (now : Nat) (ws : String)
    (rt : ResourceType) (op : ResourceOp) (d : JVal) :
    (handleWorkspaceResourceChange st now ws rt op d).1.workflowRooms = st.workflowRooms ∧
    (handleWorkspaceResourceChange st now ws rt op d).1.socketToWorkflow =
      st.socketToWorkflow := by
  rcases hr : mfind st.workspaceRooms ws with _ | room <;>
    simp [handleWorkspaceResourceChange, hr]

theorem leaveWorkspace_inv (st : RM) (sock : SocketInfo) (ws : String)
    (hinv : WsInv st)
    (hok : ∃ e, mfind st.socketToWorkspace sock.id = some e ∧ e.workspaceId = ws) :
    WsInv (leaveWorkspace st sock ws).1 :=
  (cleanupWs_inv st sock.id ws hinv hok).1

theorem leaveWorkspace_frame (st : RM) (sock : SocketInfo) (ws : String) :
    (leaveWorkspace st sock ws).1.workflowRooms = st.workflowRooms ∧
    (leaveWorkspace st sock ws).1.socketToWorkflow = st.socketToWorkflow := by
  obtain ⟨-, h1, h2, -⟩ := cleanupWs_components st sock.id ws
  exact ⟨h1, h2⟩

/-! ## Invariant preservation by every well-formed step -/

theorem inv_initial : Inv RM.initial := by
  refine ⟨⟨?_, ?_, ?_⟩, ⟨?_, ?_, ?_⟩⟩
  · simp [RM.initial, mkeys]
  · intro k room hkr
    simp [RM.initial, mfind] at hkr
  · intro s ws
    simp [RM.initial, mfind]
  · simp [RM.initial, mkeys]
  · intro k room hkr
    simp [RM.initial, mfind] at hkr
  · intro s w
    simp [RM.initial, mfind]

theorem stepOK_preserves_inv (st : RM) (step : Step) (hinv : Inv st)
    (hok : StepOK st step) : Inv (applyStep st step).1 := by
  obtain ⟨hws, hwf⟩ := hinv
  cases step with
  | joinWs sock ws access now =>
      refine ⟨joinWorkspace_inv st sock ws access now hws hok, ?_⟩
      obtain ⟨f1, f2, -⟩ := joinWorkspace_frame st sock ws access now
      exact wfInv_of_eq f1 f2 hwf
  | leaveWs sock ws =>
      refine ⟨leaveWorkspace_inv st sock ws hws hok, ?_⟩
      obtain ⟨f1, f2⟩ := leaveWorkspace_frame st sock ws
      exact wfInv_of_eq f1 f2 hwf
  | joinWf store sock wf now =>
      refine ⟨?_, joinWorkflow_inv store st sock wf now hwf⟩
      obtain ⟨f1, f2⟩ := joinWorkflow_frame store st sock wf now
      exact wsInv_of_eq f1 f2 hws
  | leaveWf sock =>
      refine ⟨?_, leaveWorkflow_inv st sock hwf⟩
      obtain ⟨f1, f2⟩ := leaveWorkflow_frame st sock
      exact wsInv_of_eq f1 f2 hws
  | wfDeleted connected now wf =>
      refine ⟨?_, handleWorkflowDeletion_inv st connected now wf hwf⟩
      obtain ⟨f1, f2⟩ := handleWorkflowDeletion_frame st connected now wf
      exact wsInv_of_eq f1 f2 hws
  | wfUpdated now wf =>
      refine ⟨?_, handleWorkflowUpdate_inv st now wf hwf⟩
      obtain ⟨f1, f2⟩ := handleWorkflowUpdate_frame st now wf
      exact wsInv_of_eq f1 f2 hws
  | wfReverted wf ts =>
      refine ⟨?_, handleWorkflowRevert_inv st wf ts hwf⟩
      obtain ⟨f1, f2⟩ := handleWorkflowRevert_frame st wf ts
      exact wsInv_of_eq f1 f2 hws
  | copilotEdit now wf d =>
      refine ⟨?_, handleCopilotWorkflowEdit_inv st now wf d hwf⟩
      obtain ⟨f1, f2⟩ := handleCopilotWorkflowEdit_frame st now wf d
      exact wsInv_of_eq f1 f2 hws
  | permChanged connected now u ws r rem =>
      refine ⟨?_, handlePermissionChange_inv st connected now u ws r rem hwf⟩
      obtain ⟨f1, f2⟩ := handlePermissionChange_ws_frame st connected now u ws r rem
      exact wsInv_of_eq f1 f2 hws
  | resourceChanged now ws rt op d =>
      refine ⟨handleWorkspaceResourceChange_inv st now ws rt op d hws, ?_⟩
      obtain ⟨f1, f2⟩ := handleWorkspaceResourceChange_frame st now ws rt op d
      exact wfInv_of_eq f1 f2 hwf

theorem goodTrace_inv (st : RM) (steps : List Step) (hinv : Inv st)
    (htr : GoodTrace st steps) : Inv (runSteps st steps) := by
  induction steps generalizing st with
  | nil => exact hinv
  | cons s rest ih =>
      obtain ⟨hok, htr2⟩ := htr
      exact ih _ (stepOK_preserves_inv st s hinv hok) htr2

/-! ## Effect-trace lemmas for the eviction controller -/

/-- An effect-accumulating fold only appends effects; when every step appends
disconnect-free effects, so does the fold. -/
theorem foldl_effects_append {α : Type} (f : RM × List Effect → α → RM × List Effect)
    (hstep : ∀ acc x, ∃ t, (f acc x).2 = acc.2 ++ t ∧
      ∀ s0, Effect.disconnect s0 ∉ t) :
    ∀ (l : List α) (acc : RM × List Effect),
      ∃ t, (l.foldl f acc).2 = acc.2 ++ t ∧ ∀ s0, Effect.disconnect s0 ∉ t := by
  intro l
  induction l with
  | nil =>
      intro acc
      exact ⟨[], by simp, by simp⟩
  | cons x rest ih =>
      intro acc
      obtain ⟨t1, ht1, hd1⟩ := hstep acc x
      obtain ⟨t2, ht2, hd2⟩ := ih (f acc x)
      refine ⟨t1 ++ t2, ?_, ?_⟩
      · simp only [List.foldl_cons]
        rw [ht2, ht1, List.append_assoc]
      · intro s0 hmem
        rcases List.mem_append.1 hmem with h | h
        · exact hd1 s0 h
        · exact hd2 s0 h

theorem permChangeSocket_effects (connected : List String) (now : Nat)
    (wsId roomWf : String) (newRole : Option String) (isRemoved : Bool)
    (acc : RM × List Effect) (x : String × UserPresence) :
    ∃ t, (permChangeSocket connected now wsId roomWf newRole isRemoved acc x).2 =
      acc.2 ++ t ∧ ∀ s0, Effect.disconnect s0 ∉ t := by
  cases isRemoved
  · rcases hr : mfind acc.1.workflowRooms roomWf with _ | r <;>
      by_cases hc : x.1 ∈ connected
    · exact ⟨[Effect.emitSocket x.1 "permission-changed"
        (permChangedPayload wsId roomWf x.2.role newRole now)],
        by simp [permChangeSocket, hr, hc], by simp⟩
    · exact ⟨[], by simp [permChangeSocket, hr, hc], by simp⟩
    · exact ⟨[Effect.emitSocket x.1 "permission-changed"
        (permChangedPayload wsId roomWf x.2.role newRole now)],
        by simp [permChangeSocket, hr, hc], by simp⟩
    · exact ⟨[], by simp [permChangeSocket, hr, hc], by simp⟩
  · by_cases hc : x.1 ∈ connected
    · exact ⟨[Effect.emitSocket x.1 "permission-revoked" (permRevokedPayload wsId now),
        Effect.socketLeave x.1 roomWf],
        by simp [permChangeSocket, hc], by simp⟩
    · exact ⟨[], by simp [permChangeSocket, hc], by simp⟩

theorem broadcast_no_disconnect (st : RM) (wf : String) :
    ∀ s0, Effect.disconnect s0 ∉ broadcastPresenceUpdate st wf := by
  intro s0
  rcases hr : mfind st.workflowRooms wf with _ | room <;>
    simp [broadcastPresenceUpdate, hr]

theorem permChangeRoom_effects (connected : List String) (now : Nat)
    (u wsId : String) (newRole : Option String) (isRemoved : Bool)
    (acc : RM × List Effect) (roomId : String) :
    ∃ t, (permChangeRoom connected now u wsId newRole isRemoved acc roomId).2 =
      acc.2 ++ t ∧ ∀ s0, Effect.disconnect s0 ∉ t := by
  rcases hroom : mfind acc.1.workflowRooms roomId with _ | room
  · exact ⟨[], by simp [permChangeRoom, hroom], by simp⟩
  · obtain ⟨t1, ht1, hd1⟩ := foldl_effects_append _
      (permChangeSocket_effects connected now wsId room.workflowId newRole isRemoved)
      (room.users.filter (fun q => q.2.userId == u)) acc
    refine ⟨t1 ++ broadcastPresenceUpdate
      ((room.users.filter (fun q => q.2.userId == u)).foldl
        (permChangeSocket connected now wsId room.workflowId newRole isRemoved) acc).1
      room.workflowId, ?_, ?_⟩
    · simp only [permChangeRoom, hroom]
      rw [ht1, List.append_assoc]
    · intro s0 hmem
      rcases List.mem_append.1 hmem with h | h
      · exact hd1 s0 h
      · exact broadcast_no_disconnect _ _ s0 h

/-- `handlePermissionChange` never disconnects a socket. -/
theorem handlePermissionChange_no_disconnect (st : RM) (connected : List String)
    (now : Nat) (u wsId : String) (newRole : Option String) (isRemoved : Bool) :
    ∀ s0, Effect.disconnect s0 ∉
      (handlePermissionChange st connected now u wsId newRole isRemoved).2 := by
  intro s0
  by_cases hemp : (mkeys (st.workflowRooms.filter
      (fun p => p.2.users.any (fun q => q.2.userId == u)))).isEmpty
  · rw [show handlePermissionChange st connected now u wsId newRole isRemoved =
        (st, []) from by simp [handlePermissionChange, hemp]]
    simp
  · rw [show handlePermissionChange st connected now u wsId newRole isRemoved =
        (mkeys (st.workflowRooms.filter
          (fun p => p.2.users.any (fun q => q.2.userId == u)))).foldl
          (permChangeRoom connected now u wsId newRole isRemoved) (st, []) from by
        simp [handlePermissionChange, hemp]]
    obtain ⟨t, ht, hd⟩ := foldl_effects_append _
      (permChangeRoom_effects connected now u wsId newRole isRemoved)
      (mkeys (st.workflowRooms.filter
        (fun p => p.2.users.any (fun q => q.2.userId == u)))) (st, [])
    rw [ht]
    intro hmem
    rcases List.mem_append.1 hmem with h | h
    · simp at h
    · exact hd s0 h

/-- In the revocation loop, each connected socket of the snapshot receives the
`permission-revoked` emit. -/
theorem permFold_socket_emit (connected : List String) (now : Nat)
    (wsId roomWf : String) (newRole : Option String) :
    ∀ (l : List (String × UserPresence)) (acc : RM × List Effect)
      (sp : String × UserPresence), sp ∈ l → sp.1 ∈ connected →
      Effect.emitSocket sp.1 "permission-revoked" (permRevokedPayload wsId now) ∈
        (l.foldl (permChangeSocket connected now wsId roomWf newRole true) acc).2 := by
  intro l
  induction l with
  | nil =>
      intro acc sp hmem
      simp at hmem
  | cons x rest ih =>
      intro acc sp hmem hconn
      rcases List.mem_cons.1 hmem with he | hm
      · subst he
        have hstep : (permChangeSocket connected now wsId roomWf newRole true acc sp).2 =
            acc.2 ++ [Effect.emitSocket sp.1 "permission-revoked"
              (permRevokedPayload wsId now), Effect.socketLeave sp.1 roomWf] := by
          simp [permChangeSocket, hconn]
        obtain ⟨t, ht, -⟩ := foldl_effects_append _
          (permChangeSocket_effects connected now wsId roomWf newRole true) rest
          (permChangeSocket connected now wsId roomWf newRole true acc sp)
        simp only [List.foldl_cons]
        rw [ht, hstep]
        simp
      · simp only [List.foldl_cons]
        exact ih _ sp hm hconn

theorem cleanupWf_other_keys (st : RM) (x wf k : String) (hk : k ≠ wf) :
    mfind (cleanupUserFromRoom st x wf).workflowRooms k = mfind st.workflowRooms k := by
  rcases hr : mfind st.workflowRooms wf with _ | room
  · rw [cleanupWf_rooms_none st x wf hr]
  · rw [cleanupWf_rooms st x wf hr]
    by_cases hz : room.activeConnections - 1 = 0
    · rw [if_pos hz, mfind_mdel_ne _ _ _ hk]
    · rw [if_neg hz, mfind_mset_ne _ _ _ _ hk]

theorem permChangeSocket_other_keys (connected : List String) (now : Nat)
    (wsId roomWf : String) (newRole : Option String) (isRemoved : Bool)
    (acc : RM × List Effect) (x : String × UserPresence) (k : String)
    (hk : k ≠ roomWf) :
    mfind (permChangeSocket connected now wsId roomWf newRole isRemoved
      acc x).1.workflowRooms k = mfind acc.1.workflowRooms k := by
  cases isRemoved
  · rcases hr : mfind acc.1.workflowRooms roomWf with _ | r
    · simp [permChangeSocket, hr]
    · rw [show (permChangeSocket connected now wsId roomWf newRole false acc x).1 =
          { acc.1 with workflowRooms :=
            (mset acc.1.workflowRooms roomWf
              { r with users := mset r.users x.1 { x.2 with role := newRole } }) }
          from by simp [permChangeSocket, hr]]
      exact mfind_mset_ne _ _ _ _ hk
  · rw [show (permChangeSocket connected now wsId roomWf newRole true acc x).1 =
        cleanupUserFromRoom acc.1 x.1 roomWf from rfl]
    exact cleanupWf_other_keys _ _ _ _ hk

theorem permChangeRoom_other_keys (connected : List String) (now : Nat)
    (u wsId : String) (newRole : Option String) (isRemoved : Bool)
    (acc : RM × List Effect) (roomId : String) (k : String) (hk : k ≠ roomId)
    (hinv : WfInv acc.1) :
    mfind (permChangeRoom connected now u wsId newRole isRemoved
      acc roomId).1.workflowRooms k = mfind acc.1.workflowRooms k := by
  rcases hroom : mfind acc.1.workflowRooms roomId with _ | room
  · simp [permChangeRoom, hroom]
  · have hid : room.workflowId = roomId := (hinv.2.1 roomId room hroom).2.2.2
    have hstate : (permChangeRoom connected now u wsId newRole isRemoved acc roomId).1 =
        ((room.users.filter (fun q => q.2.userId == u)).foldl
          (permChangeSocket connected now wsId room.workflowId newRole isRemoved) acc).1 := by
      simp only [permChangeRoom, hroom]
    rw [hstate]
    exact foldl_preserves _
      (fun stt => mfind stt.workflowRooms k = mfind acc.1.workflowRooms k)
      (fun a x h => by
        show mfind (permChangeSocket connected now wsId room.workflowId newRole
          isRemoved a x).1.workflowRooms k = mfind acc.1.workflowRooms k
        rw [permChangeSocket_other_keys connected now wsId room.workflowId newRole
          isRemoved a x k (by rw [hid]; exact hk)]
        exact h)
      _ acc rfl

theorem cleanup_users_sub (st : RM) (x wf : String) :
    ∀ w r' s p', mfind (cleanupUserFromRoom st x wf).workflowRooms w = some r' →
      mfind r'.users s = some p' →
      ∃ r0, mfind st.workflowRooms w = some r0 ∧ mfind r0.users s = some p' := by
  intro w r' s p' hr' hp'
  rcases hr : mfind st.workflowRooms wf with _ | room
  · rw [cleanupWf_rooms_none st x wf hr] at hr'
    exact ⟨r', hr', hp'⟩
  · rw [cleanupWf_rooms st x wf hr] at hr'
    by_cases hz : room.activeConnections - 1 = 0
    · rw [if_pos hz] at hr'
      by_cases hw : w = wf
      · rw [hw, mfind_mdel_self] at hr'
        exact Option.noConfusion hr'
      · rw [mfind_mdel_ne _ _ _ hw] at hr'
        exact ⟨r', hr', hp'⟩
    · rw [if_neg hz] at hr'
      by_cases hw : w = wf
      · rw [hw] at hr' ⊢
        have hre := mfind_mset_self_eq hr'
        subst hre
        have hp2 : mfind (mdel room.users x) s = some p' := hp'
        by_cases hsx : s = x
        · rw [hsx, mfind_mdel_self] at hp2
          exact Option.noConfusion hp2
        · rw [mfind_mdel_ne _ _ _ hsx] at hp2
          exact ⟨room, hr, hp2⟩
      · rw [mfind_mset_ne _ _ _ _ hw] at hr'
        exact ⟨r', hr', hp'⟩

theorem foldCleanup_users_sub (wf : String) :
    ∀ (l : List String) (st : RM) (w : String) (r' : WorkflowRoom) (s : String)
      (p' : UserPresence),
      mfind ((l.foldl (fun a x => cleanupUserFromRoom a x wf) st)).workflowRooms w =
        some r' →
      mfind r'.users s = some p' →
      ∃ r0, mfind st.workflowRooms w = some r0 ∧ mfind r0.users s = some p' := by
  intro l
  induction l with
  | nil =>
      intro st w r' s p' h1 h2
      exact ⟨r', h1, h2⟩
  | cons x rest ih =>
      intro st w r' s p' h1 h2
      simp only [List.foldl_cons] at h1
      obtain ⟨r1, hr1, hp1⟩ := ih _ w r' s p' h1 h2
      exact cleanup_users_sub st x wf w r1 s p' hr1 hp1

theorem foldl_users_sub {α : Type} (f : RM × List Effect → α → RM × List Effect)
    (hstep : ∀ (acc : RM × List Effect) (x : α) (w : String) (r' : WorkflowRoom)
      (s : String) (p' : UserPresence),
      mfind (f acc x).1.workflowRooms w = some r' → mfind r'.users s = some p' →
      ∃ r0, mfind acc.1.workflowRooms w = some r0 ∧ mfind r0.users s = some p') :
    ∀ (l : List α) (acc : RM × List Effect) (w : String) (r' : WorkflowRoom)
      (s : String) (p' : UserPresence),
      mfind (l.foldl f acc).1.workflowRooms w = some r' →
      mfind r'.users s = some p' →
      ∃ r0, mfind acc.1.workflowRooms w = some r0 ∧ mfind r0.users s = some p' := by
  intro l
  induction l with
  | nil =>
      intro acc w r' s p' h1 h2
      exact ⟨r', h1, h2⟩
  | cons x rest ih =>
      intro acc w r' s p' h1 h2
      simp only [List.foldl_cons] at h1
      obtain ⟨r1, hr1, hp1⟩ := ih (f acc x) w r' s p' h1 h2
      exact hstep acc x w r1 s p' hr1 hp1

theorem permChangeRoom_users_sub (connected : List String) (now : Nat)
    (u wsId : String) (newRole : Option String) (acc : RM × List Effect)
    (roomId : String) :
    ∀ w r' s p', mfind (permChangeRoom connected now u wsId newRole true
        acc roomId).1.workflowRooms w = some r' →
      mfind r'.users s = some p' →
      ∃ r0, mfind acc.1.workflowRooms w = some r0 ∧ mfind r0.users s = some p' := by
  intro w r' s p' hr' hp'
  rcases hroom : mfind acc.1.workflowRooms roomId with _ | room
  · rw [show (permChangeRoom connected now u wsId newRole true acc roomId).1 = acc.1
      from by simp [permChangeRoom, hroom]] at hr'
    exact ⟨r', hr', hp'⟩
  · rw [show (permChangeRoom connected now u wsId newRole true acc roomId).1 =
        ((room.users.filter (fun q => q.2.userId == u)).map Prod.fst).foldl
          (fun a x => cleanupUserFromRoom a x room.workflowId) acc.1 from by
        simp only [permChangeRoom, hroom]
        rw [permFold_removed_state]] at hr'
    exact foldCleanup_users_sub room.workflowId _ acc.1 w r' s p' hr' hp'

/-- In the revocation loop, every surviving presence was present before. -/
theorem handlePermissionChange_users_sub (st : RM) (connected : List String)
    (now : Nat) (u wsId : String) (newRole : Option String) :
    ∀ w r' s p', mfind (handlePermissionChange st connected now u wsId newRole
        true).1.workflowRooms w = some r' →
      mfind r'.users s = some p' →
      ∃ r0, mfind st.workflowRooms w = some r0 ∧ mfind r0.users s = some p' := by
  intro w r' s p' hr' hp'
  by_cases hemp : (mkeys (st.workflowRooms.filter
      (fun p => p.2.users.any (fun q => q.2.userId == u)))).isEmpty
  · rw [show handlePermissionChange st connected now u wsId newRole true =
        (st, []) from by simp [handlePermissionChange, hemp]] at hr'
    exact ⟨r', hr', hp'⟩
  · rw [show handlePermissionChange st connected now u wsId newRole true =
        (mkeys (st.workflowRooms.filter
          (fun p => p.2.users.any (fun q => q.2.userId == u)))).foldl
          (permChangeRoom connected now u wsId newRole true) (st, []) from by
        simp [handlePermissionChange, hemp]] at hr'
    exact foldl_users_sub _
      (fun acc x => permChangeRoom_users_sub connected now u wsId newRole acc x)
      _ (st, []) w r' s p' hr' hp'

/-- Processing a room in the revocation loop leaves no presence of the user in
that room. -/
theorem permRoom_removes_user (connected : List String) (now : Nat)
    (u wsId : String) (newRole : Option String) (acc : RM × List Effect)
    (roomId : String) (hinv : WfInv acc.1) :
    ∀ room', mfind (permChangeRoom connected now u wsId newRole true
        acc roomId).1.workflowRooms roomId = some room' →
      ∀ s p', mfind room'.users s = some p' → p'.userId ≠ u := by
  intro room' hr' s p' hp' hpu
  rcases hroom : mfind acc.1.workflowRooms roomId with _ | room
  · rw [show (permChangeRoom connected now u wsId newRole true acc roomId).1 = acc.1
      from by simp [permChangeRoom, hroom]] at hr'
    rw [hroom] at hr'
    exact Option.noConfusion hr'
  · have hid : room.workflowId = roomId := (hinv.2.1 roomId room hroom).2.2.2
    have hndu : (mkeys room.users).Nodup := (hinv.2.1 roomId room hroom).1
    have hstate : (permChangeRoom connected now u wsId newRole true acc roomId).1 =
        ((room.users.filter (fun q => q.2.userId == u)).map Prod.fst).foldl
          (fun a x => cleanupUserFromRoom a x room.workflowId) acc.1 := by
      simp only [permChangeRoom, hroom]
      rw [permFold_removed_state]
    rw [hid] at hstate
    have hsub : ((room.users.filter (fun q => q.2.userId == u)).map Prod.fst).Nodup := by
      apply List.Nodup.sublist _ hndu
      exact List.Sublist.map _ (List.filter_sublist _)
    have hall : ∀ s2 ∈ (room.users.filter (fun q => q.2.userId == u)).map Prod.fst,
        mfind acc.1.socketToWorkflow s2 = some roomId := by
      intro s2 hs2
      rcases List.mem_map.1 hs2 with ⟨sp, hsp, hfst⟩
      have hisSome : (mfind room.users s2).isSome := by
        apply mfind_isSome_of_mem_mkeys
        exact List.mem_map.2 ⟨sp, List.mem_of_mem_filter hsp, hfst⟩
      exact (hinv.2.2 s2 roomId).2 ⟨room, hroom, hisSome⟩
    obtain ⟨hinv2, hmap⟩ := foldCleanup_inv roomId _ acc.1 hinv hsub hall
    rw [hstate] at hr'
    have hidx2 : mfind (((room.users.filter (fun q => q.2.userId == u)).map
        Prod.fst).foldl (fun a x => cleanupUserFromRoom a x roomId)
        acc.1).socketToWorkflow s = some roomId := by
      apply (hinv2.2.2 s roomId).2
      exact ⟨room', hr', by simp [hp']⟩
    obtain ⟨-, hnotl⟩ := hmap s hidx2
    obtain ⟨r0, hr0, hp0⟩ := foldCleanup_users_sub roomId _ acc.1 roomId
      room' s p' hr' hp'
    rw [hroom] at hr0
    injection hr0 with hre
    rw [← hre] at hp0
    apply hnotl
    apply List.mem_map.2
    refine ⟨(s, p'), ?_, rfl⟩
    apply List.mem_filter.2
    exact ⟨mem_of_mfind_eq_some hp0, by simp [hpu]⟩

theorem permFold_rooms_removes (connected : List String) (now : Nat)
    (u wsId : String) (newRole : Option String) :
    ∀ (ids : List String) (acc : RM × List Effect),
      WfInv acc.1 →
      (∀ w room, mfind acc.1.workflowRooms w = some room →
        (∃ s p, mfind room.users s = some p ∧ p.userId = u) → w ∈ ids) →
      ∀ w room, mfind ((ids.foldl (permChangeRoom connected now u wsId newRole
          true) acc)).1.workflowRooms w = some room →
        ∀ s p, mfind room.users s = some p → p.userId ≠ u := by
  intro ids
  induction ids with
  | nil =>
      intro acc hinv hhyp w room hr s p hp hpu
      exact absurd (hhyp w room hr ⟨s, p, hp, hpu⟩) (List.not_mem_nil w)
  | cons roomId rest ih =>
      intro acc hinv hhyp
      have hinv' := permChangeRoom_inv connected now u wsId newRole true acc roomId hinv
      have hhyp' : ∀ w room,
          mfind (permChangeRoom connected now u wsId newRole true acc
            roomId).1.workflowRooms w = some room →
          (∃ s p, mfind room.users s = some p ∧ p.userId = u) → w ∈ rest := by
        intro w room hrw hex
        obtain ⟨s, p, hp, hpu⟩ := hex
        by_cases hW : w = roomId
        · exfalso
          rw [hW] at hrw
          exact permRoom_removes_user connected now u wsId newRole acc roomId hinv
            room hrw s p hp hpu
        · rw [permChangeRoom_other_keys connected now u wsId newRole true acc
            roomId w hW hinv] at hrw
          rcases List.mem_cons.1 (hhyp w room hrw ⟨s, p, hp, hpu⟩) with he | hm
          · exact absurd he hW
          · exact hm
      simp only [List.foldl_cons]
      exact ih _ hinv' hhyp'

/-- Membership of a room's key in the affected-rooms snapshot. -/
theorem mem_affected_of_user (st : RM) (u w : String) (room : WorkflowRoom)
    (s : String) (p : UserPresence) (hr : mfind st.workflowRooms w = some room)
    (hp : mfind room.users s = some p) (hpu : p.userId = u) :
    w ∈ mkeys (st.workflowRooms.filter
      (fun q => q.2.users.any (fun q2 => q2.2.userId == u))) := by
  apply List.mem_map.2
  refine ⟨(w, room), ?_, rfl⟩
  apply List.mem_filter.2
  refine ⟨mem_of_mfind_eq_some hr, ?_⟩
  apply List.any_eq_true.2
  exact ⟨(s, p), mem_of_mfind_eq_some hp, by simp [hpu]⟩

/-- After a revocation, no registered workflow room contains a presence of the
removed user. -/
theorem handlePermissionChange_removes_user (st : RM) (connected : List String)
    (now : Nat) (u wsId : String) (newRole : Option String) (hinv : WfInv st) :
    ∀ w room, mfind (handlePermissionChange st connected now u wsId newRole
        true).1.workflowRooms w = some room →
      ∀ s p, mfind room.users s = some p → p.userId ≠ u := by
  by_cases hemp : (mkeys (st.workflowRooms.filter
      (fun p => p.2.users.any (fun q => q.2.userId == u)))).isEmpty
  · rw [show handlePermissionChange st connected now u wsId newRole true =
        (st, []) from by simp [handlePermissionChange, hemp]]
    intro w room hr s p hp hpu
    have hw := mem_affected_of_user st u w room s p hr hp hpu
    rw [List.isEmpty_iff] at hemp
    rw [hemp] at hw
    simp at hw
  · rw [show handlePermissionChange st connected now u wsId newRole true =
        (mkeys (st.workflowRooms.filter
          (fun p => p.2.users.any (fun q => q.2.userId == u)))).foldl
          (permChangeRoom connected now u wsId newRole true) (st, []) from by
        simp [handlePermissionChange, hemp]]
    apply permFold_rooms_removes connected now u wsId newRole _ (st, []) hinv
    intro w room hr hex
    obtain ⟨s, p, hp, hpu⟩ := hex
    exact mem_affected_of_user st u w room s p hr hp hpu

/-- After a revocation, the removed user's sockets have no `socketToWorkflow`
entry. -/
theorem handlePermissionChange_clears_index (st : RM) (connected : List String)
    (now : Nat) (u wsId : String) (newRole : Option String) (hinv : WfInv st) :
    ∀ w room s p, mfind st.workflowRooms w = some room →
      mfind room.users s = some p → p.userId = u →
      mfind (handlePermissionChange st connected now u wsId newRole
        true).1.socketToWorkflow s = none := by
  intro w room s p hr hp hpu
  have hinv2 := handlePermissionChange_inv st connected now u wsId newRole true hinv
  rcases hres : mfind (handlePermissionChange st connected now u wsId newRole
      true).1.socketToWorkflow s with _ | w2
  · rfl
  · exfalso
    obtain ⟨r2, hr2, hm2⟩ := (hinv2.2.2 s w2).1 hres
    obtain ⟨p2, hp2⟩ := Option.isSome_iff_exists.1 hm2
    obtain ⟨r0, hr0, hp0⟩ := handlePermissionChange_users_sub st connected now u
      wsId newRole w2 r2 s p2 hr2 hp2
    have hidxw : mfind st.socketToWorkflow s = some w :=
      (hinv.2.2 s w).2 ⟨room, hr, by simp [hp]⟩
    have hidxw2 : mfind st.socketToWorkflow s = some w2 :=
      (hinv.2.2 s w2).2 ⟨r0, hr0, by simp [hp0]⟩
    rw [hidxw] at hidxw2
    injection hidxw2 with hww
    rw [← hww] at hr0
    rw [hr] at hr0
    injection hr0 with hrr
    rw [← hrr] at hp0
    rw [hp] at hp0
    have hpp := Option.some.inj hp0
    exact handlePermissionChange_removes_user st connected now u wsId newRole hinv
      w2 r2 hr2 s p2 hp2 (by rw [← hpp, hpu])

/-- Every connected socket of the removed user receives `permission-revoked`. -/
theorem permFold_rooms_emit (connected : List String) (now : Nat)
    (u wsId : String) (newRole : Option String) :
    ∀ (ids : List String) (acc : RM × List Effect) (w : String)
      (room : WorkflowRoom) (s : String) (p : UserPresence),
      WfInv acc.1 → w ∈ ids →
      mfind acc.1.workflowRooms w = some room →
      mfind room.users s = some p → p.userId = u → s ∈ connected →
      Effect.emitSocket s "permission-revoked" (permRevokedPayload wsId now) ∈
        (ids.foldl (permChangeRoom connected now u wsId newRole true) acc).2 := by
  intro ids
  induction ids with
  | nil =>
      intro acc w room s p _ hmem
      simp at hmem
  | cons roomId rest ih =>
      intro acc w room s p hinv hmem hroomw hsp hpu hconn
      by_cases hW : roomId = w
      · subst hW
        have heff : (permChangeRoom connected now u wsId newRole true acc roomId).2 =
            ((room.users.filter (fun q => q.2.userId == u)).foldl
              (permChangeSocket connected now wsId room.workflowId newRole true)
                acc).2 ++
            broadcastPresenceUpdate
              ((room.users.filter (fun q => q.2.userId == u)).foldl
                (permChangeSocket connected now wsId room.workflowId newRole true)
                  acc).1 room.workflowId := by
          simp only [permChangeRoom, hroomw]
        have hin : Effect.emitSocket s "permission-revoked"
            (permRevokedPayload wsId now) ∈
            ((room.users.filter (fun q => q.2.userId == u)).foldl
              (permChangeSocket connected now wsId room.workflowId newRole true)
                acc).2 := by
          apply permFold_socket_emit connected now wsId room.workflowId newRole _
            acc (s, p) _ hconn
          apply List.mem_filter.2
          exact ⟨mem_of_mfind_eq_some hsp, by simp [hpu]⟩
        have hemit : Effect.emitSocket s "permission-revoked"
            (permRevokedPayload wsId now) ∈
            (permChangeRoom connected now u wsId newRole true acc roomId).2 := by
          rw [heff]
          exact List.mem_append.2 (Or.inl hin)
        obtain ⟨t, ht, -⟩ := foldl_effects_append _
          (permChangeRoom_effects connected now u wsId newRole true) rest
          (permChangeRoom connected now u wsId newRole true acc roomId)
        simp only [List.foldl_cons]
        rw [ht]
        exact List.mem_append.2 (Or.inl hemit)
      · have hroomw' : mfind (permChangeRoom connected now u wsId newRole true acc
            roomId).1.workflowRooms w = some room := by
          rw [permChangeRoom_other_keys connected now u wsId newRole true acc
            roomId w (fun h => hW h.symm) hinv]
          exact hroomw
        have hinv' := permChangeRoom_inv connected now u wsId newRole true acc
          roomId hinv
        have hmem' : w ∈ rest := by
          rcases List.mem_cons.1 hmem with he | hm
          · exact absurd he.symm hW
          · exact hm
        simp only [List.foldl_cons]
        exact ih _ w room s p hinv' hmem' hroomw' hsp hpu hconn

theorem handlePermissionChange_emits_revoked (st : RM) (connected : List String)
    (now : Nat) (u wsId : String) (newRole : Option String) (hinv : WfInv st) :
    ∀ w room s p, mfind st.workflowRooms w = some room →
      mfind room.users s = some p → p.userId = u → s ∈ connected →
      Effect.emitSocket s "permission-revoked" (permRevokedPayload wsId now) ∈
        (handlePermissionChange st connected now u wsId newRole true).2 := by
  intro w room s p hr hp hpu hconn
  have hw := mem_affected_of_user st u w room s p hr hp hpu
  have hemp : ¬ (mkeys (st.workflowRooms.filter
      (fun p => p.2.users.any (fun q => q.2.userId == u)))).isEmpty := by
    rw [List.isEmpty_iff]
    intro h
    rw [h] at hw
    simp at hw
  rw [show handlePermissionChange st connected now u wsId newRole true =
      (mkeys (st.workflowRooms.filter
        (fun p => p.2.users.any (fun q => q.2.userId == u)))).foldl
        (permChangeRoom connected now u wsId newRole true) (st, []) from by
      simp [handlePermissionChange, hemp]]
  exact permFold_rooms_emit connected now u wsId newRole _ (st, []) w room s p
    hinv hw hr hp hpu hconn

/-- The role-update loop sets `role := newRole` on every presence of the user
in the processed room (and the room's key set is unchanged). -/
theorem permFold_false_roles (connected : List String) (now : Nat)
    (u wsId roomWf : String) (newRole : Option String) :
    ∀ (l : List (String × UserPresence)) (acc : RM × List Effect) (K : List String),
      WfInv acc.1 →
      (∃ r, mfind acc.1.workflowRooms roomWf = some r ∧ mkeys r.users = K ∧
        (∀ s p', mfind r.users s = some p' → p'.userId = u →
          (p'.role = newRole ∨ s ∈ l.map Prod.fst))) →
      (∀ sp ∈ l, sp.1 ∈ K) →
      ∃ r', mfind ((l.foldl (permChangeSocket connected now wsId roomWf newRole
          false) acc)).1.workflowRooms roomWf = some r' ∧
        (∀ s p', mfind r'.users s = some p' → p'.userId = u → p'.role = newRole) := by
  intro l
  induction l with
  | nil =>
      intro acc K hinv hK hall
      obtain ⟨r, hr, -, hroles⟩ := hK
      refine ⟨r, hr, ?_⟩
      intro s p' hp' hpu
      rcases hroles s p' hp' hpu with h | h
      · exact h
      · simp at h
  | cons x rest ih =>
      intro acc K hinv hK hall
      obtain ⟨r, hr, hKeq, hroles⟩ := hK
      have hx : (mfind r.users x.1).isSome := by
        apply mfind_isSome_of_mem_mkeys
        rw [hKeq]
        exact hall x (by simp)
      have hstep : (permChangeSocket connected now wsId roomWf newRole false acc x).1 =
          { acc.1 with workflowRooms :=
            (mset acc.1.workflowRooms roomWf
              { r with users := mset r.users x.1 { x.2 with role := newRole } }) } := by
        simp [permChangeSocket, hr]
      simp only [List.foldl_cons]
      apply ih _ K
      · rw [hstep]
        exact wfInv_roleUpdate acc.1 roomWf x.1 r _ hinv hr hx
      · refine ⟨{ r with users := mset r.users x.1 { x.2 with role := newRole } },
          ?_, ?_, ?_⟩
        · rw [hstep]
          show mfind (mset acc.1.workflowRooms roomWf
            { r with users := mset r.users x.1 { x.2 with role := newRole } }) roomWf =
            some { r with users := mset r.users x.1 { x.2 with role := newRole } }
          exact mfind_mset_self _ _ _
        · show mkeys (mset r.users x.1 { x.2 with role := newRole }) = K
          rw [mkeys_mset_of_isSome _ _ _ hx, hKeq]
        · intro s p' hp' hpu
          have hp2 : mfind (mset r.users x.1 { x.2 with role := newRole }) s =
            some p' := hp'
          by_cases hsx : s = x.1
          · rw [hsx, mfind_mset_self] at hp2
            left
            rw [← Option.some.inj hp2]
          · rw [mfind_mset_ne _ _ _ _ hsx] at hp2
            rcases hroles s p' hp2 hpu with h | h
            · exact Or.inl h
            · right
              simp only [List.map_cons] at h
              rcases List.mem_cons.1 h with he | hm
              · exact absurd he hsx
              · exact hm
      · intro sp hsp
        exact hall sp (by simp [hsp])

theorem permRoom_updates_roles (connected : List String) (now : Nat)
    (u wsId : String) (newRole : Option String) (acc : RM × List Effect)
    (roomId : String) (hinv : WfInv acc.1) :
    ∀ room', mfind (permChangeRoom connected now u wsId newRole false acc
        roomId).1.workflowRooms roomId = some room' →
      ∀ s p', mfind room'.users s = some p' → p'.userId = u → p'.role = newRole := by
  intro room' hr' s p' hp' hpu
  rcases hroom : mfind acc.1.workflowRooms roomId with _ | room
  · rw [show (permChangeRoom connected now u wsId newRole false acc roomId).1 = acc.1
      from by simp [permChangeRoom, hroom]] at hr'
    rw [hroom] at hr'
    exact Option.noConfusion hr'
  · have hid : room.workflowId = roomId := (hinv.2.1 roomId room hroom).2.2.2
    have hstate : (permChangeRoom connected now u wsId newRole false acc roomId).1 =
        ((room.users.filter (fun q => q.2.userId == u)).foldl
          (permChangeSocket connected now wsId room.workflowId newRole false) acc).1 := by
      simp only [permChangeRoom, hroom]
    rw [hid] at hstate
    obtain ⟨r', hr2, hroles⟩ := permFold_false_roles connected now u wsId roomId
      newRole (room.users.filter (fun q => q.2.userId == u)) acc
      (mkeys room.users) hinv
      ⟨room, hroom, rfl, by
        intro s2 p2 hp2 hpu2
        right
        apply List.mem_map.2
        refine ⟨(s2, p2), ?_, rfl⟩
        apply List.mem_filter.2
        exact ⟨mem_of_mfind_eq_some hp2, by simp [hpu2]⟩⟩
      (by
        intro sp hsp
        exact List.mem_map.2 ⟨sp, List.mem_of_mem_filter hsp, rfl⟩)
    rw [hstate] at hr'
    rw [hr2] at hr'
    injection hr' with hre
    rw [hre] at hroles
    exact hroles s p' hp' hpu

theorem permFold_rooms_roles (connected : List String) (now : Nat)
    (u wsId : String) (newRole : Option String) :
    ∀ (ids : List String) (acc : RM × List Effect),
      WfInv acc.1 →
      (∀ w room, mfind acc.1.workflowRooms w = some room →
        ∀ s p, mfind room.users s = some p → p.userId = u →
          (p.role = newRole ∨ w ∈ ids)) →
      ∀ w room, mfind ((ids.foldl (permChangeRoom connected now u wsId newRole
          false) acc)).1.workflowRooms w = some room →
        ∀ s p, mfind room.users s = some p → p.userId = u → p.role = newRole := by
  intro ids
  induction ids with
  | nil =>
      intro acc hinv hhyp w room hr s p hp hpu
      rcases hhyp w room hr s p hp hpu with h | h
      · exact h
      · exact absurd h (List.not_mem_nil w)
  | cons roomId rest ih =>
      intro acc hinv hhyp
      have hinv' := permChangeRoom_inv connected now u wsId newRole false acc
        roomId hinv
      have hhyp' : ∀ w room,
          mfind (permChangeRoom connected now u wsId newRole false acc
            roomId).1.workflowRooms w = some room →
          ∀ s p, mfind room.users s = some p → p.userId = u →
            (p.role = newRole ∨ w ∈ rest) := by
        intro w room hrw s p hp hpu
        by_cases hW : w = roomId
        · left
          rw [hW] at hrw
          exact permRoom_updates_roles connected now u wsId newRole acc roomId
            hinv room hrw s p hp hpu
        · rw [permChangeRoom_other_keys connected now u wsId newRole false acc
            roomId w hW hinv] at hrw
          rcases hhyp w room hrw s p hp hpu with h | h
          · exact Or.inl h
          · rcases List.mem_cons.1 h with he | hm
            · exact absurd he hW
            · exact Or.inr hm
      simp only [List.foldl_cons]
      exact ih _ hinv' hhyp'

/-- After a non-removal permission change, every cached role of the user holds
the new role (which may be null). -/
theorem handlePermissionChange_updates_roles (st : RM) (connected : List String)
    (now : Nat) (u wsId : String) (newRole : Option String) (hinv : WfInv st) :
    ∀ w room, mfind (handlePermissionChange st connected now u wsId newRole
        false).1.workflowRooms w = some room →
      ∀ s p, mfind room.users s = some p → p.userId = u → p.role = newRole := by
  by_cases hemp : (mkeys (st.workflowRooms.filter
      (fun p => p.2.users.any (fun q => q.2.userId == u)))).isEmpty
  · rw [show handlePermissionChange st connected now u wsId newRole false =
        (st, []) from by simp [handlePermissionChange, hemp]]
    intro w room hr s p hp hpu
    have hw := mem_affected_of_user st u w room s p hr hp hpu
    rw [List.isEmpty_iff] at hemp
    rw [hemp] at hw
    simp at hw
  · rw [show handlePermissionChange st connected now u wsId newRole false =
        (mkeys (st.workflowRooms.filter
          (fun p => p.2.users.any (fun q => q.2.userId == u)))).foldl
          (permChangeRoom connected now u wsId newRole false) (st, []) from by
        simp [handlePermissionChange, hemp]]
    apply permFold_rooms_roles connected now u wsId newRole _ (st, []) hinv
    intro w room hr s p hp hpu
    exact Or.inr (mem_affected_of_user st u w room s p hr hp hpu)

/-- In the role-update loop, each connected socket of the snapshot receives the
`permission-changed` emit carrying its old role and the new role. -/
theorem permFold_socket_emit_changed (connected : List String) (now : Nat)
    (wsId roomWf : String) (newRole : Option String) :
    ∀ (l : List (String × UserPresence)) (acc : RM × List Effect)
      (sp : String × UserPresence), sp ∈ l → sp.1 ∈ connected →
      Effect.emitSocket sp.1 "permission-changed"
        (permChangedPayload wsId roomWf sp.2.role newRole now) ∈
        (l.foldl (permChangeSocket connected now wsId roomWf newRole false) acc).2 := by
  intro l
  induction l with
  | nil =>
      intro acc sp hmem
      simp at hmem
  | cons x rest ih =>
      intro acc sp hmem hconn
      rcases List.mem_cons.1 hmem with he | hm
      · subst he
        have hstep : (permChangeSocket connected now wsId roomWf newRole false acc sp).2 =
            acc.2 ++ [Effect.emitSocket sp.1 "permission-changed"
              (permChangedPayload wsId roomWf sp.2.role newRole now)] := by
          rcases hr : mfind acc.1.workflowRooms roomWf with _ | r <;>
            simp [permChangeSocket, hr, hconn]
        obtain ⟨t, ht, -⟩ := foldl_effects_append _
          (permChangeSocket_effects connected now wsId roomWf newRole false) rest
          (permChangeSocket connected now wsId roomWf newRole false acc sp)
        simp only [List.foldl_cons]
        rw [ht, hstep]
        simp
      · simp only [List.foldl_cons]
        exact ih _ sp hm hconn

theorem permFold_rooms_emit_changed (connected : List String) (now : Nat)
    (u wsId : String) (newRole : Option String) :
    ∀ (ids : List String) (acc : RM × List Effect) (w : String)
      (room : WorkflowRoom) (s : String) (p : UserPresence),
      WfInv acc.1 → w ∈ ids →
      mfind acc.1.workflowRooms w = some room →
      mfind room.users s = some p → p.userId = u → s ∈ connected →
      Effect.emitSocket s "permission-changed"
        (permChangedPayload wsId w p.role newRole now) ∈
        (ids.foldl (permChangeRoom connected now u wsId newRole false) acc).2 := by
  intro ids
  induction ids with
  | nil =>
      intro acc w room s p _ hmem
      simp at hmem
  | cons roomId rest ih =>
      intro acc w room s p hinv hmem hroomw hsp hpu hconn
      by_cases hW : roomId = w
      · subst hW
        have hid : room.workflowId = roomId := (hinv.2.1 roomId room hroomw).2.2.2
        have heff : (permChangeRoom connected now u wsId newRole false acc roomId).2 =
            ((room.users.filter (fun q => q.2.userId == u)).foldl
              (permChangeSocket connected now wsId room.workflowId newRole false)
                acc).2 ++
            broadcastPresenceUpdate
              ((room.users.filter (fun q => q.2.userId == u)).foldl
                (permChangeSocket connected now wsId room.workflowId newRole false)
                  acc).1 room.workflowId := by
          simp only [permChangeRoom, hroomw]
        have hin : Effect.emitSocket s "permission-changed"
            (permChangedPayload wsId room.workflowId p.role newRole now) ∈
            ((room.users.filter (fun q => q.2.userId == u)).foldl
              (permChangeSocket connected now wsId room.workflowId newRole false)
                acc).2 := by
          apply permFold_socket_emit_changed connected now wsId room.workflowId
            newRole _ acc (s, p) _ hconn
          apply List.mem_filter.2
          exact ⟨mem_of_mfind_eq_some hsp, by simp [hpu]⟩
        have hemit : Effect.emitSocket s "permission-changed"
            (permChangedPayload wsId roomId p.role newRole now) ∈
            (permChangeRoom connected now u wsId newRole false acc roomId).2 := by
          rw [heff]
          apply List.mem_append.2
          left
          rw [← hid]
          exact hin
        obtain ⟨t, ht, -⟩ := foldl_effects_append _
          (permChangeRoom_effects connected now u wsId newRole false) rest
          (permChangeRoom connected now u wsId newRole false acc roomId)
        simp only [List.foldl_cons]
        rw [ht]
        exact List.mem_append.2 (Or.inl hemit)
      · have hroomw' : mfind (permChangeRoom connected now u wsId newRole false acc
            roomId).1.workflowRooms w = some room := by
          rw [permChangeRoom_other_keys connected now u wsId newRole false acc
            roomId w (fun h => hW h.symm) hinv]
          exact hroomw
        have hinv' := permChangeRoom_inv connected now u wsId newRole false acc
          roomId hinv
        have hmem' : w ∈ rest := by
          rcases List.mem_cons.1 hmem with he | hm
          · exact absurd he.symm hW
          · exact hm
        simp only [List.foldl_cons]
        exact ih _ w room s p hinv' hmem' hroomw' hsp hpu hconn

theorem handlePermissionChange_emits_changed (st : RM) (connected : List String)
    (now : Nat) (u wsId : String) (newRole : Option String) (hinv : WfInv st) :
    ∀ w room s p, mfind st.workflowRooms w = some room →
      mfind room.users s = some p → p.userId = u → s ∈ connected →
      Effect.emitSocket s "permission-changed"
        (permChangedPayload wsId w p.role newRole now) ∈
        (handlePermissionChange st connected now u wsId newRole false).2 := by
  intro w room s p hr hp hpu hconn
  have hw := mem_affected_of_user st u w room s p hr hp hpu
  have hemp : ¬ (mkeys (st.workflowRooms.filter
      (fun p => p.2.users.any (fun q => q.2.userId == u)))).isEmpty := by
    rw [List.isEmpty_iff]
    intro h
    rw [h] at hw
    simp at hw
  rw [show handlePermissionChange st connected now u wsId newRole false =
      (mkeys (st.workflowRooms.filter
        (fun p => p.2.users.any (fun q => q.2.userId == u)))).foldl
        (permChangeRoom connected now u wsId newRole false) (st, []) from by
      simp [handlePermissionChange, hemp]]
  exact permFold_rooms_emit_changed connected now u wsId newRole _ (st, []) w room
    s p hinv hw hr hp hpu hconn

/-! ## Claim C1 — workspace fanout event names -/

/-- C1: the §4.6 mapping table is violated by the source for `mcp`: with the
`ws1` room non-empty, an `mcp` `create` notification is emitted under the event
name `workspace-mcp-updated`, not `workspace-mcp-created`; the `eventMap`
collapses all three `mcp` operations (and likewise `env`) into `-updated`,
while `tools`/`folders`/`workflows` do carry per-operation names. -/
theorem C1_mcp_create_collapsed_to_updated :
    (handleWorkspaceResourceChange stMcp 5 "ws1" .mcp .create .null).2 =
      [Effect.emitRoom "ws1" "workspace-mcp-updated"
        (.obj [("workspaceId", .str "ws1"), ("resourceType", .str "mcp"),
               ("operation", .str "create"), ("data", .null), ("timestamp", .num 5)])] ∧
    resourceEventName .mcp .create ≠ "workspace-mcp-created" ∧
    resourceEventName .mcp .delete ≠ "workspace-mcp-deleted" ∧
    resourceEventName .env .update = "workspace-env-updated" ∧
    resourceEventName .tools .create = "workspace-tool-created" ∧
    resourceEventName .tools .update = "workspace-tool-updated" ∧
    resourceEventName .tools .delete = "workspace-tool-deleted" ∧
    resourceEventName .folders .create = "workspace-folder-created" ∧
    resourceEventName .folders .update = "workspace-folder-updated" ∧
    resourceEventName .folders .delete = "workspace-folder-deleted" ∧
    resourceEventName .workflows .create = "workspace-workflow-created" ∧
    resourceEventName .workflows .update = "workspace-workflow-updated" ∧
    resourceEventName .workflows .delete = "workspace-workflow-deleted" := by
  refine ⟨rfl, by decide, by decide, by decide, by decide, by decide, by decide,
    by decide, by decide, by decide, by decide, by decide, by decide⟩

/-! ## Claim C2 — no tombstone after workflow deletion -/

/-- C2 counterexample: a `workflow-deleted` notification is processed for `w1`
while the durable record of `w1` still exists (the notification is an
unauthenticated HTTP POST, independent of the durable delete).  The room is
simply removed — no tombstone — and a subsequent `join-workflow` for `w1`
succeeds even though the durable record was never deleted and restored. -/
theorem C2_rejoin_after_deletion_counterexample :
    mfind ((handleWorkflowDeletion stWf1 ["s1"] 2 "w1").1).workflowRooms "w1" = none ∧
    "w1" ∈ store1.workflows ∧
    (mfind ((joinWorkflow store1 ((handleWorkflowDeletion stWf1 ["s1"] 2 "w1").1)
      sock2 "w1" 3).1).workflowRooms "w1").isSome ∧
    mfind ((joinWorkflow store1 ((handleWorkflowDeletion stWf1 ["s1"] 2 "w1").1)
      sock2 "w1" 3).1).socketToWorkflow "s2" = some "w1" := by
  decide

/-- C2 (amended): processing a deletion notification removes the in-memory
room for the workflow (leaving no tombstone), and a later `join-workflow` is
denied exactly by the join-time access check: while the durable workflow
record is absent, every `join-workflow` for that id is rejected with a join
error and no state change. -/
theorem C2_amended_deletion_denies_while_record_absent (st st' : RM)
    (connected : List String) (now now2 : Nat) (wf : String)
    (store : DurableStore) (sock : SocketInfo) (hwf : wf ∉ store.workflows) :
    mfind ((handleWorkflowDeletion st connected now wf).1).workflowRooms wf = none ∧
    (joinWorkflow store st' sock wf now2).1 = st' ∧
    (∃ msg, (joinWorkflow store st' sock wf now2).2 =
      [Effect.emitSocket sock.id "join-workflow-error" (errorBody msg)]) := by
  refine ⟨?_, ?_, ?_⟩
  · rcases hr : mfind st.workflowRooms wf with _ | room
    · simp [handleWorkflowDeletion, hr]
    · simp [handleWorkflowDeletion, hr, mfind_mdel_self]
  all_goals
    rcases hu : sock.userId with _ | uid
  case _ =>
    simp [joinWorkflow, hu]
  case _ =>
    rcases hn : sock.userName with _ | uname
    · simp [joinWorkflow, hu, hn]
    · simp [joinWorkflow, hu, hn, resolveWorkflowAccess, hwf]
  case _ =>
    refine ⟨"Authentication required", ?_⟩
    simp [joinWorkflow, hu, errorBody]
  case _ =>
    rcases hn : sock.userName with _ | uname
    · refine ⟨"Authentication required", ?_⟩
      simp [joinWorkflow, hu, hn, errorBody]
    · refine ⟨"Access denied to workflow", ?_⟩
      simp [joinWorkflow, hu, hn, resolveWorkflowAccess, hwf, errorBody]

/-- C2 witness: the amended theorem applied to the concrete deleted state with
a store that has no record of `w9`. -/
theorem C2_amended_witness :
    mfind ((handleWorkflowDeletion stWf1 ["s1"] 2 "w9").1).workflowRooms "w9" = none ∧
    (joinWorkflow ⟨[], []⟩ RM.initial sock2 "w9" 3).1 = RM.initial ∧
    (∃ msg, (joinWorkflow ⟨[], []⟩ RM.initial sock2 "w9" 3).2 =
      [Effect.emitSocket "s2" "join-workflow-error" (errorBody msg)]) :=
  C2_amended_deletion_denies_while_record_absent stWf1 RM.initial ["s1"] 2 3 "w9"
    ⟨[], []⟩ sock2 (by decide)

/-! ## Claim C4 — counter / membership cardinality -/

/-- C4 counterexample: the same socket issues `join-workspace` twice for the
same workspace; the handler increments `activeConnections` unconditionally but
the JS `Set` deduplicates, so the counter (2) diverges from the membership
cardinality (1). -/
theorem C4_double_join_counterexample :
    (mfind ((joinWorkspace stWs1 sock1 "ws1" (.granted (some "admin"))
        2).1).workspaceRooms "ws1").map
      (fun r => (r.activeConnections, r.users.length)) = some (2, 1) := by
  decide

/-- C4 (amended): for every trace of well-formed registry operations from the
fresh registry — no socket re-joins its current workspace, every
`leave-workspace` names the socket's current workspace — each registered
workspace room and each registered workflow room has
`activeConnections = |users|`, strictly positive (a room is registered only
while it has members).  Without the well-formedness condition the claim fails
(see the counterexample: a repeated join of the same workspace by the same
socket makes the counter diverge from the membership cardinality). -/
theorem C4_amended_counter_matches_cardinality (steps : List Step)
    (h : GoodTrace RM.initial steps) :
    (∀ ws room, mfind (runSteps RM.initial steps).workspaceRooms ws = some room →
       room.activeConnections = room.users.length ∧ 0 < room.activeConnections) ∧
    (∀ wf room, mfind (runSteps RM.initial steps).workflowRooms wf = some room →
       room.activeConnections = room.users.length ∧ 0 < room.activeConnections) := by
  obtain ⟨⟨-, hwsconds, -⟩, ⟨-, hwfconds, -⟩⟩ :=
    goodTrace_inv RM.initial steps inv_initial h
  constructor
  · intro ws room hr
    obtain ⟨-, hc, hne⟩ := hwsconds ws room hr
    refine ⟨hc, ?_⟩
    rw [hc]
    exact List.length_pos.2 hne
  · intro wf room hr
    obtain ⟨-, hc, hne, -⟩ := hwfconds wf room hr
    refine ⟨hc, ?_⟩
    rw [hc]
    exact List.length_pos.2 hne

/-- C4 witness: the amended theorem on a concrete well-formed join/leave trace. -/
theorem C4_amended_witness :
    (∀ ws room, mfind (runSteps RM.initial
        [.joinWs sock1 "ws1" (.granted (some "admin")) 1,
         .leaveWs sock1 "ws1"]).workspaceRooms ws = some room →
       room.activeConnections = room.users.length ∧ 0 < room.activeConnections) ∧
    (∀ wf room, mfind (runSteps RM.initial
        [.joinWs sock1 "ws1" (.granted (some "admin")) 1,
         .leaveWs sock1 "ws1"]).workflowRooms wf = some room →
       room.activeConnections = room.users.length ∧ 0 < room.activeConnections) :=
  C4_amended_counter_matches_cardinality
    [.joinWs sock1 "ws1" (.granted (some "admin")) 1, .leaveWs sock1 "ws1"]
    ⟨fun e he => absurd he (by simp [RM.initial, mfind]),
     ⟨⟨"ws1", "admin"⟩, by decide, rfl⟩, trivial⟩

/-! ## Claim C5 — reverse-index / membership consistency -/

/-- C5 (amended): the reverse indices and the forward room membership are
mutually consistent — `socketToWorkflow[s] = w ⇔ s ∈ workflowRooms[w].users`
and correspondingly for `socketToWorkspace` — after every trace of registry
operations (joins, leaves, cleanups, evictions, notifications) that is
well-formed in the sense of `StepOK`, starting from any consistent state.
Without the well-formedness condition the equivalence fails (see the
counterexample: `leave-workspace` naming a never-joined workspace deletes the
reverse-index entry while membership remains). -/
theorem C5_amended_reverse_index_consistency (st : RM) (steps : List Step)
    (hinv : Inv st) (htr : GoodTrace st steps) :
    (∀ s w, mfind (runSteps st steps).socketToWorkflow s = some w ↔
       ∃ room, mfind (runSteps st steps).workflowRooms w = some room ∧
         (mfind room.users s).isSome) ∧
    (∀ s ws, (∃ e, mfind (runSteps st steps).socketToWorkspace s = some e ∧
         e.workspaceId = ws) ↔
       ∃ room, mfind (runSteps st steps).workspaceRooms ws = some room ∧
         s ∈ room.users) := by
  obtain ⟨⟨-, -, hws⟩, ⟨-, -, hwf⟩⟩ := goodTrace_inv st steps hinv htr
  exact ⟨hwf, hws⟩

/-- C5 witness: the amended theorem on a concrete workflow-join trace. -/
theorem C5_amended_witness :
    (∀ s w, mfind (runSteps RM.initial
        [.joinWf store1 sock1 "w1" 1]).socketToWorkflow s = some w ↔
       ∃ room, mfind (runSteps RM.initial
          [.joinWf store1 sock1 "w1" 1]).workflowRooms w = some room ∧
         (mfind room.users s).isSome) ∧
    (∀ s ws, (∃ e, mfind (runSteps RM.initial
          [.joinWf store1 sock1 "w1" 1]).socketToWorkspace s = some e ∧
         e.workspaceId = ws) ↔
       ∃ room, mfind (runSteps RM.initial
          [.joinWf store1 sock1 "w1" 1]).workspaceRooms ws = some room ∧
         s ∈ room.users) :=
  C5_amended_reverse_index_consistency RM.initial [.joinWf store1 sock1 "w1" 1]
    inv_initial ⟨trivial, trivial⟩

/-- C5 counterexample: socket `s1` joins workspace `ws1`, then issues
`leave-workspace` naming `ws2` (never joined).  The handler unconditionally
deletes the socket's `socketToWorkspace` entry, leaving `s1` a member of
`ws1`'s room with no reverse-index entry — the claimed equivalence fails. -/
theorem C5_leave_unjoined_counterexample :
    (mfind ((leaveWorkspace stWs1 sock1 "ws2").1).workspaceRooms "ws1").map
      (fun r => r.users.contains "s1") = some true ∧
    mfind ((leaveWorkspace stWs1 sock1 "ws2").1).socketToWorkspace "s1" = none := by
  refine ⟨by decide, by decide⟩

/-! ## Claim C3 — revocation cleanup -/

/-- C3 counterexample: socket `s1` of user `u1` is in workflow room `w1` and
workspace room `ws1`; after `handlePermissionChange(u1, ws1, null, isRemoved:
true)` the workflow side is cleaned up, but — contrary to the claim — the
socket's `socketToWorkspace` entry survives and it is still a member of the
`ws1` workspace room: `cleanupUserFromRoom` never touches the workspace side. -/
theorem C3_workspace_state_untouched_counterexample :
    mfind stRevoked.socketToWorkspace "s1" =
      some { workspaceId := "ws1", role := "admin" } ∧
    (mfind stRevoked.workspaceRooms "ws1").map (fun r => r.users.contains "s1") =
      some true ∧
    mfind stRevoked.workflowRooms "w1" = none ∧
    mfind stRevoked.socketToWorkflow "s1" = none := by
  refine ⟨by decide, by decide, by decide, by decide⟩

/-- C3 (amended): on `isRemoved = true`, for every presence of the user the
broker emits `permission-revoked` to the socket (when still connected), removes
it from its workflow room, clears its `socketToWorkflow` entry, and does not
close the socket — but it leaves the workspace rooms and the
`socketToWorkspace` reverse index entirely unchanged (the claim wrongly stated
that workspace membership is dropped and `socketToWorkspace` cleared). -/
theorem C3_amended_revocation_cleanup (st : RM) (connected : List String)
    (now : Nat) (u wsId : String) (newRole : Option String) (hinv : WfInv st) :
    (handlePermissionChange st connected now u wsId newRole true).1.workspaceRooms =
      st.workspaceRooms ∧
    (handlePermissionChange st connected now u wsId newRole true).1.socketToWorkspace =
      st.socketToWorkspace ∧
    (∀ w room s p, mfind st.workflowRooms w = some room →
      mfind room.users s = some p → p.userId = u → s ∈ connected →
      Effect.emitSocket s "permission-revoked" (permRevokedPayload wsId now) ∈
        (handlePermissionChange st connected now u wsId newRole true).2) ∧
    (∀ w room, mfind (handlePermissionChange st connected now u wsId newRole
        true).1.workflowRooms w = some room →
      ∀ s p, mfind room.users s = some p → p.userId ≠ u) ∧
    (∀ w room s p, mfind st.workflowRooms w = some room →
      mfind room.users s = some p → p.userId = u →
      mfind (handlePermissionChange st connected now u wsId newRole
        true).1.socketToWorkflow s = none) ∧
    (∀ s0, Effect.disconnect s0 ∉
      (handlePermissionChange st connected now u wsId newRole true).2) := by
  obtain ⟨f1, f2⟩ := handlePermissionChange_ws_frame st connected now u wsId
    newRole true
  exact ⟨f1, f2,
    handlePermissionChange_emits_revoked st connected now u wsId newRole hinv,
    handlePermissionChange_removes_user st connected now u wsId newRole hinv,
    handlePermissionChange_clears_index st connected now u wsId newRole hinv,
    handlePermissionChange_no_disconnect st connected now u wsId newRole true⟩

/-- C3 witness: the amended theorem at a concrete one-user state reached by a
well-formed trace (which supplies the `WfInv` hypothesis). -/
theorem C3_amended_witness :
    (handlePermissionChange (runSteps RM.initial [.joinWf store1 sock1 "w1" 1])
      ["s1"] 9 "u1" "ws1" Option.none true).1.workspaceRooms =
      (runSteps RM.initial [.joinWf store1 sock1 "w1" 1]).workspaceRooms ∧
    (handlePermissionChange (runSteps RM.initial [.joinWf store1 sock1 "w1" 1])
      ["s1"] 9 "u1" "ws1" Option.none true).1.socketToWorkspace =
      (runSteps RM.initial [.joinWf store1 sock1 "w1" 1]).socketToWorkspace ∧
    (∀ w room s p, mfind (runSteps RM.initial
        [.joinWf store1 sock1 "w1" 1]).workflowRooms w = some room →
      mfind room.users s = some p → p.userId = "u1" → s ∈ ["s1"] →
      Effect.emitSocket s "permission-revoked" (permRevokedPayload "ws1" 9) ∈
        (handlePermissionChange (runSteps RM.initial [.joinWf store1 sock1 "w1" 1])
          ["s1"] 9 "u1" "ws1" Option.none true).2) ∧
    (∀ w room, mfind (handlePermissionChange (runSteps RM.initial
        [.joinWf store1 sock1 "w1" 1]) ["s1"] 9 "u1" "ws1" Option.none
        true).1.workflowRooms w = some room →
      ∀ s p, mfind room.users s = some p → p.userId ≠ "u1") ∧
    (∀ w room s p, mfind (runSteps RM.initial
        [.joinWf store1 sock1 "w1" 1]).workflowRooms w = some room →
      mfind room.users s = some p → p.userId = "u1" →
      mfind (handlePermissionChange (runSteps RM.initial [.joinWf store1 sock1 "w1" 1])
        ["s1"] 9 "u1" "ws1" Option.none true).1.socketToWorkflow s = none) ∧
    (∀ s0, Effect.disconnect s0 ∉
      (handlePermissionChange (runSteps RM.initial [.joinWf store1 sock1 "w1" 1])
        ["s1"] 9 "u1" "ws1" Option.none true).2) :=
  C3_amended_revocation_cleanup (runSteps RM.initial [.joinWf store1 sock1 "w1" 1])
    ["s1"] 9 "u1" "ws1" Option.none
    (goodTrace_inv RM.initial [.joinWf store1 sock1 "w1" 1] inv_initial
      ⟨trivial, trivial⟩).2

/-! ## Claim C9 — null-role permission change -/

/-- C9: a permission change with `isRemoved = false` and `newRole = null` is
not rejected: every cached role of the user's presences is set to null (the
source assigns `newRole!`), each connected affected socket receives
`permission-changed` whose `newRole` field serializes to null, and the
`/api/permission-changed` endpoint still responds `200 {success: true}`. -/
theorem C9_null_role_processed (st : RM) (connected : List String) (now : Nat)
    (u wsId : String) (hinv : WfInv st) :
    (∀ w room, mfind (handlePermissionChange st connected now u wsId Option.none
        false).1.workflowRooms w = some room →
      ∀ s p, mfind room.users s = some p → p.userId = u → p.role = none) ∧
    (∀ w room s p, mfind st.workflowRooms w = some room →
      mfind room.users s = some p → p.userId = u → s ∈ connected →
      Effect.emitSocket s "permission-changed"
        (permChangedPayload wsId w p.role Option.none now) ∈
        (handlePermissionChange st connected now u wsId Option.none false).2) ∧
    (∀ v : BodyVal, v.userId = u → v.workspaceId = wsId →
      v.newRole = Option.none → v.isRemoved = false →
      (createHttpHandler st connected now
        ⟨"POST", "/api/permission-changed", some v⟩).1 = ⟨200, successBody⟩) := by
  refine ⟨handlePermissionChange_updates_roles st connected now u wsId Option.none hinv,
    handlePermissionChange_emits_changed st connected now u wsId Option.none hinv,
    ?_⟩
  intro v _ _ _ _
  rfl

/-- C9 witness: the null-role theorem at a concrete one-user state. -/
theorem C9_null_role_witness :
    (∀ w room, mfind (handlePermissionChange (runSteps RM.initial
        [.joinWf store1 sock2 "w1" 1]) ["s2"] 9 "u1" "ws1" Option.none
        false).1.workflowRooms w = some room →
      ∀ s p, mfind room.users s = some p → p.userId = "u1" → p.role = none) ∧
    (∀ w room s p, mfind (runSteps RM.initial
        [.joinWf store1 sock2 "w1" 1]).workflowRooms w = some room →
      mfind room.users s = some p → p.userId = "u1" → s ∈ ["s2"] →
      Effect.emitSocket s "permission-changed"
        (permChangedPayload "ws1" w p.role Option.none 9) ∈
        (handlePermissionChange (runSteps RM.initial [.joinWf store1 sock2 "w1" 1])
          ["s2"] 9 "u1" "ws1" Option.none false).2) ∧
    (∀ v : BodyVal, v.userId = "u1" → v.workspaceId = "ws1" →
      v.newRole = Option.none → v.isRemoved = false →
      (createHttpHandler (runSteps RM.initial [.joinWf store1 sock2 "w1" 1]) ["s2"] 9
        ⟨"POST", "/api/permission-changed", some v⟩).1 = ⟨200, successBody⟩) :=
  C9_null_role_processed (runSteps RM.initial [.joinWf store1 sock2 "w1" 1])
    ["s2"] 9 "u1" "ws1"
    (goodTrace_inv RM.initial [.joinWf store1 sock2 "w1" 1] inv_initial
      ⟨trivial, trivial⟩).2

/-! ## Claim C7 — join-workspace rejection -/

/-- C7: for an authenticated socket whose workspace access check throws or
reports no access, the `join-workspace` handler emits exactly one
`join-workspace-error` to that socket, leaves the whole registry state
unchanged, and performs no disconnect (and no other effect). -/
theorem C7_join_workspace_rejected (st : RM) (sock : SocketInfo) (ws : String)
    (now : Nat) (u n : String) (hu : sock.userId = some u)
    (hn : sock.userName = some n) (access : AccessOutcome)
    (hacc : access = .denied ∨ access = .error) :
    (joinWorkspace st sock ws access now).1 = st ∧
    (∃ msg, (joinWorkspace st sock ws access now).2 =
      [Effect.emitSocket sock.id "join-workspace-error" (errorBody msg)]) ∧
    (∀ s0, Effect.disconnect s0 ∉ (joinWorkspace st sock ws access now).2) := by
  rcases hacc with h | h <;> subst h
  · refine ⟨by simp [joinWorkspace, hu, hn], ⟨"Access denied to workspace",
      by simp [joinWorkspace, hu, hn, errorBody]⟩, ?_⟩
    intro s0
    simp [joinWorkspace, hu, hn]
  · refine ⟨by simp [joinWorkspace, hu, hn], ⟨"Failed to verify workspace access",
      by simp [joinWorkspace, hu, hn, errorBody]⟩, ?_⟩
    intro s0
    simp [joinWorkspace, hu, hn]

/-- C7 witness: the rejection theorem at a concrete authenticated socket. -/
theorem C7_join_workspace_rejected_witness :
    (joinWorkspace RM.initial sock1 "ws1" .denied 0).1 = RM.initial ∧
    (∃ msg, (joinWorkspace RM.initial sock1 "ws1" .denied 0).2 =
      [Effect.emitSocket "s1" "join-workspace-error" (errorBody msg)]) ∧
    (∀ s0, Effect.disconnect s0 ∉ (joinWorkspace RM.initial sock1 "ws1" .denied 0).2) :=
  C7_join_workspace_rejected RM.initial sock1 "ws1" 0 "u1" "Alice" rfl rfl .denied
    (Or.inl rfl)

/-! ## Claim C8 — notifier timeout, single attempt, always resolves -/

/-- C8: `notifyWorkspaceResourceChange` arms a 5000 ms abort timer for its
single fetch attempt, never retries, and resolves on every fetch outcome
(ok, non-ok response, abort on timeout, other error); the timer is cleared
in `finally`. -/
theorem C8_notify_single_attempt_always_resolves (ws : String)
    (rt : ResourceType) (op : ResourceOp) (f : FetchOutcome) :
    ∃ r, notifyWorkspaceResourceChange ws rt op f = .ok r ∧
      r.fetchAttempts ≤ 1 ∧
      r.abortTimerMs = (if ws = "" then none else some 5000) ∧
      (ws = "" ∨ (r.fetchAttempts = 1 ∧ r.abortTimerMs = some 5000 ∧ r.timerCleared = true)) := by
  by_cases h : ws = "" <;> cases f <;>
    simp [notifyWorkspaceResourceChange, notifyFetchStep, h]

/-! ## Claim C6 — HTTP ingress dispatch -/

/-- C6: each of the six POST notification endpoints parses its body, dispatches
to the corresponding RoomManager operation and responds `200 {success: true}`;
a body on which `JSON.parse` throws yields `500` with an error-reason object;
any request matching no route yields `404`. -/
theorem C6_http_dispatch (st : RM) (connected : List String) (now : Nat) (v : BodyVal) :
    (createHttpHandler st connected now ⟨"POST", "/api/workflow-deleted", some v⟩ =
      (⟨200, successBody⟩, handleWorkflowDeletion st connected now v.workflowId)) ∧
    (createHttpHandler st connected now ⟨"POST", "/api/workflow-updated", some v⟩ =
      (⟨200, successBody⟩, handleWorkflowUpdate st now v.workflowId)) ∧
    (createHttpHandler st connected now ⟨"POST", "/api/copilot-workflow-edit", some v⟩ =
      (⟨200, successBody⟩, handleCopilotWorkflowEdit st now v.workflowId v.description)) ∧
    (createHttpHandler st connected now ⟨"POST", "/api/workflow-reverted", some v⟩ =
      (⟨200, successBody⟩, handleWorkflowRevert st v.workflowId v.timestamp)) ∧
    (createHttpHandler st connected now ⟨"POST", "/api/permission-changed", some v⟩ =
      (⟨200, successBody⟩,
       handlePermissionChange st connected now v.userId v.workspaceId v.newRole v.isRemoved)) ∧
    (createHttpHandler st connected now ⟨"POST", "/api/workspace-resource-changed", some v⟩ =
      (⟨200, successBody⟩,
       handleWorkspaceResourceChange st now v.workspaceId v.resourceType v.operation v.data)) ∧
    (∀ url, url ∈ ["/api/workflow-deleted", "/api/workflow-updated",
        "/api/copilot-workflow-edit", "/api/workflow-reverted",
        "/api/permission-changed", "/api/workspace-resource-changed"] →
      ∃ reason, createHttpHandler st connected now ⟨"POST", url, none⟩ =
        (⟨500, errorBody reason⟩, st, [])) ∧
    (∀ m u b, ¬(m = "GET" ∧ u = "/health") →
      ¬(m = "POST" ∧ u ∈ ["/api/workflow-deleted", "/api/workflow-updated",
        "/api/copilot-workflow-edit", "/api/workflow-reverted",
        "/api/permission-changed", "/api/workspace-resource-changed"]) →
      createHttpHandler st connected now ⟨m, u, b⟩ =
        (⟨404, errorBody "Not found"⟩, st, [])) := by
  refine ⟨rfl, rfl, rfl, rfl, rfl, rfl, ?_, ?_⟩
  · intro url hurl
    simp only [List.mem_cons, List.not_mem_nil, or_false] at hurl
    rcases hurl with h | h | h | h | h | h
    all_goals subst h
    · exact ⟨"Failed to process deletion notification", rfl⟩
    · exact ⟨"Failed to process update notification", rfl⟩
    · exact ⟨"Failed to process copilot edit notification", rfl⟩
    · exact ⟨"Failed to process revert notification", rfl⟩
    · exact ⟨"Failed to process permission change notification", rfl⟩
    · exact ⟨"Failed to process workspace resource change notification", rfl⟩
  · intro m u b h0 h6
    have n1 : ¬(m = "POST" ∧ u = "/api/workflow-deleted") := by
      rintro ⟨hm, hu2⟩
      exact h6 ⟨hm, by simp [hu2]⟩
    have n2 : ¬(m = "POST" ∧ u = "/api/workflow-updated") := by
      rintro ⟨hm, hu2⟩
      exact h6 ⟨hm, by simp [hu2]⟩
    have n3 : ¬(m = "POST" ∧ u = "/api/copilot-workflow-edit") := by
      rintro ⟨hm, hu2⟩
      exact h6 ⟨hm, by simp [hu2]⟩
    have n4 : ¬(m = "POST" ∧ u = "/api/workflow-reverted") := by
      rintro ⟨hm, hu2⟩
      exact h6 ⟨hm, by simp [hu2]⟩
    have n5 : ¬(m = "POST" ∧ u = "/api/permission-changed") := by
      rintro ⟨hm, hu2⟩
      exact h6 ⟨hm, by simp [hu2]⟩
    have n6 : ¬(m = "POST" ∧ u = "/api/workspace-resource-changed") := by
      rintro ⟨hm, hu2⟩
      exact h6 ⟨hm, by simp [hu2]⟩
    simp only [createHttpHandler]
    rw [if_neg h0, if_neg n1, if_neg n2, if_neg n3, if_neg n4, if_neg n5, if_neg n6]

/-- C6 witness: the dispatch theorem applied at a request matching no route. -/
theorem C6_http_dispatch_witness :
    createHttpHandler RM.initial [] 0 ⟨"PUT", "/nope", none⟩ =
      (⟨404, errorBody "Not found"⟩, RM.initial, []) :=
  (C6_http_dispatch RM.initial [] 0 sampleBody).2.2.2.2.2.2.2 "PUT" "/nope" none
    (by decide) (by decide)

/-! ## Claim C10 — missing-room notifications are no-ops -/

/-- C10: when no in-memory room exists for the given workflow id, each of the
four workflow notification operations leaves the registry unchanged and emits
nothing, and the corresponding HTTP endpoints still respond
`200 {success: true}`. -/
theorem C10_no_room_noop (st : RM) (connected : List String) (now ts : Nat)
    (wf : String) (d : Option String) (v : BodyVal)
    (h : mfind st.workflowRooms wf = none) (hv : v.workflowId = wf) :
    handleWorkflowDeletion st connected now wf = (st, []) ∧
    handleWorkflowUpdate st now wf = (st, []) ∧
    handleWorkflowRevert st wf ts = (st, []) ∧
    handleCopilotWorkflowEdit st now wf d = (st, []) ∧
    createHttpHandler st connected now ⟨"POST", "/api/workflow-deleted", some v⟩ =
      (⟨200, successBody⟩, st, []) ∧
    createHttpHandler st connected now ⟨"POST", "/api/workflow-updated", some v⟩ =
      (⟨200, successBody⟩, st, []) ∧
    createHttpHandler st connected now ⟨"POST", "/api/copilot-workflow-edit", some v⟩ =
      (⟨200, successBody⟩, st, []) ∧
    createHttpHandler st connected now ⟨"POST", "/api/workflow-reverted", some v⟩ =
      (⟨200, successBody⟩, st, []) := by
  subst hv
  refine ⟨by simp [handleWorkflowDeletion, h], by simp [handleWorkflowUpdate, h],
    by simp [handleWorkflowRevert, h], by simp [handleCopilotWorkflowEdit, h],
    ?_, ?_, ?_, ?_⟩
  · simp [createHttpHandler, handleWorkflowDeletion, h]
  · simp [createHttpHandler, handleWorkflowUpdate, h]
  · simp [createHttpHandler, handleCopilotWorkflowEdit, h]
  · simp [createHttpHandler, handleWorkflowRevert, h]

/-- C10 witness: the no-op theorem at the empty registry. -/
theorem C10_no_room_noop_witness :
    handleWorkflowDeletion RM.initial [] 0 "w1" = (RM.initial, []) ∧
    handleWorkflowUpdate RM.initial 0 "w1" = (RM.initial, []) ∧
    handleWorkflowRevert RM.initial "w1" 7 = (RM.initial, []) ∧
    handleCopilotWorkflowEdit RM.initial 0 "w1" none = (RM.initial, []) ∧
    createHttpHandler RM.initial [] 0 ⟨"POST", "/api/workflow-deleted", some sampleBody⟩ =
      (⟨200, successBody⟩, RM.initial, []) ∧
    createHttpHandler RM.initial [] 0 ⟨"POST", "/api/workflow-updated", some sampleBody⟩ =
      (⟨200, successBody⟩, RM.initial, []) ∧
    createHttpHandler RM.initial [] 0 ⟨"POST", "/api/copilot-workflow-edit", some sampleBody⟩ =
      (⟨200, successBody⟩, RM.initial, []) ∧
    createHttpHandler RM.initial [] 0 ⟨"POST", "/api/workflow-reverted", some sampleBody⟩ =
      (⟨200, successBody⟩, RM.initial, []) :=
  C10_no_room_noop RM.initial [] 0 7 "w1" none sampleBody (by decide) rfl

/-- C8 witness: the notifier theorem at a concrete call that times out. -/
theorem C8_notify_witness :
    ∃ r, notifyWorkspaceResourceChange "ws1" .env .update .abortError = .ok r ∧
      r.fetchAttempts ≤ 1 ∧
      r.abortTimerMs = (if "ws1" = "" then none else some 5000) ∧
      ("ws1" = "" ∨ (r.fetchAttempts = 1 ∧ r.abortTimerMs = some 5000 ∧ r.timerCleared = true)) :=
  C8_notify_single_attempt_always_resolves "ws1" .env .update .abortError

end Sim

